import Mathlib

/-!
# Verification of the premier-picklist order-processing pipeline

A shallow embedding of `store.py` (class `Store`): the SKU normalizer
(`clean_and_normalize_order_data`), the pick-list builder (`create_pick_list`),
the order ledger update (`parse_awaiting_shipment_order_data`) and the
multi-order-customers report (`customers_with_multiple_orders`), together with
theorems settling the frozen claims about them.

Python strings are modelled through their character lists (`String.data`);
Python's `dict` (insertion-ordered) is modelled as an association list whose
update keeps the position of an existing key and appends a fresh key at the
end.  MySQL tables are modelled as lists of rows in insertion order; the SQL
queries issued by the code are modelled as list transformations.  Exceptions
are modelled with `Except`; a `try`/`except` block maps the error branch to
the handler's behaviour.
-/

namespace PremierPicklist

/-! ## Python string primitives

`pySplit` is Python's `str.split(sep)` for a one-character separator,
`pyTake n` is `s[:n]`, `pyTakeLast n` is `s[-n:]`, `pyLastChar` is the
(partial) `s[-1]`, and `pyStrLe` is Python's `<=` on strings (code-point
lexicographic, which for UTF-8 encoded text coincides with byte order). -/

def splitChars (sep : Char) : List Char → List (List Char)
  | [] => [[]]
  | c :: cs =>
    if c = sep then [] :: splitChars sep cs
    else
      match splitChars sep cs with
      | [] => [[c]]
      | p :: ps => (c :: p) :: ps

def pySplit (sep : Char) (s : String) : List String :=
  (splitChars sep s.data).map String.mk

def pyTake (n : Nat) (s : String) : String := ⟨s.data.take n⟩

def pyTakeLast (n : Nat) (s : String) : String := ⟨s.data.drop (s.data.length - n)⟩

def pyLastChar (s : String) : Option Char := s.data.getLast?

def charLeb (a b : Char) : Bool := a.toNat ≤ b.toNat

def strLeChars : List Char → List Char → Bool
  | [], _ => true
  | _ :: _, [] => false
  | a :: as, b :: bs =>
    if a.toNat < b.toNat then true
    else if b.toNat < a.toNat then false
    else strLeChars as bs

def pyStrLe (a b : String) : Bool := strLeChars a.data b.data

/-- Python `int(s)` restricted to the non-negative decimal numerals this
program produces (every quantity string is written by `str()` of an `int`).
`none` models the `ValueError` that `int` raises on a non-numeral. -/
def digitVal (c : Char) : Option Nat :=
  if 48 ≤ c.toNat ∧ c.toNat ≤ 57 then some (c.toNat - 48) else none

def pyIntAux : List Char → Nat → Option Nat
  | [], acc => some acc
  | c :: cs, acc =>
    match digitVal c with
    | none => none
    | some d => pyIntAux cs (acc * 10 + d)

def pyInt (s : String) : Option Nat :=
  match s.data with
  | [] => none
  | l => pyIntAux l 0

/-! ## A stable sort

Python's `list.sort` is a stable sort; a stable sort's output is determined
by the (total, transitive) boolean comparison, so structural insertion sort
is an extensionally faithful model. -/

def insertLe {α : Type} (le : α → α → Bool) (x : α) : List α → List α
  | [] => [x]
  | y :: ys => if le x y then x :: y :: ys else y :: insertLe le x ys

def sortLe {α : Type} (le : α → α → Bool) : List α → List α
  | [] => []
  | x :: xs => insertLe le x (sortLe le xs)

/-! ## The grouping dictionary

`skus_grouped_by_style_to_size_and_quantity` maps a group key either to a
list of `"SIZE-QTY"` strings or to a bare quantity string. -/

inductive GroupValue where
  | sizes (entries : List String)
  | scalar (qty : String)
deriving DecidableEq

abbrev Grouping := List (String × GroupValue)

def lookupG {β : Type} : List (String × β) → String → Option β
  | [], _ => none
  | (k, v) :: rest, s => if k = s then some v else lookupG rest s

/-- Models `self.dict[key] = str(quantity)`: overwrite in place, append if fresh. -/
def setScalar : Grouping → String → String → Grouping
  | [], key, q => [(key, .scalar q)]
  | (k, v) :: rest, key, q =>
    if k = key then (key, .scalar q) :: rest else (k, v) :: setScalar rest key q

/-- Models `self.dict[key] = [entry]` when the key is fresh, otherwise
`self.dict[key].append(entry)`.  Appending to a key that holds a plain
string raises `AttributeError` (`str` has no `append`), modelled as
`.error`. -/
def appendSized : Grouping → String → String → Except Unit Grouping
  | [], key, entry => .ok [(key, .sizes [entry])]
  | (k, v) :: rest, key, entry =>
    if k = key then
      match v with
      | .sizes l => .ok ((k, .sizes (l ++ [entry])) :: rest)
      | .scalar _ => .error ()
    else
      (appendSized rest key entry).map (fun r => (k, v) :: r)

/-! ## The SKU normalizer (`clean_and_normalize_order_data`, store.py 211-321) -/

/-- The whole `try:` body for one fetched `(SKU, quantity)` row.  `.error`
stands for any exception raised inside the block (`ValueError` from tuple
unpacking, `IndexError` from `style[-1]` on an empty style, `AttributeError`
from appending to a scalar entry). -/
def normalizeAttempt (g : Grouping) (SKU : String) (quantity : Nat) :
    Except Unit Grouping :=
  let sku_array := pySplit '-' SKU
  let brand := sku_array.headD ""
  if brand = "PREM" then
    match sku_array with
    | [premiere, style, size] =>
      -- if style[-3:] == 'NEW' or style[-1] == 'P': style = style[:3]
      (if pyTakeLast 3 style = "NEW" then Except.ok true
       else
         match pyLastChar style with
         | none => Except.error ()
         | some c => Except.ok (c = 'P')).bind fun strip =>
        let style2 := if strip then pyTake 3 style else style
        appendSized g (premiere ++ "-" ++ style2) (size ++ "-" ++ toString quantity)
    | [premiere, index_1, index_2, size] =>
      appendSized g (premiere ++ "-" ++ index_1 ++ "-" ++ index_2)
        (size ++ "-" ++ toString quantity)
    | _ => .ok g
  else if brand = "PremJeans" ∨ brand = "PremiereJeans" then
    match sku_array with
    | [jean, color, size] =>
      let jean2 := if jean = "PremiereJeans" then "PremJeans" else jean
      appendSized g (jean2 ++ "-" ++ color) (size ++ "-" ++ toString quantity)
    | _ => .error ()
  else if brand = "PremTee" ∨ brand = "PremiereLSTee" then
    match sku_array with
    | [shirt, style, size] =>
      let size2 := if size = "XXL" then "2XL" else size
      appendSized g (style ++ "-" ++ shirt) (size2 ++ "-" ++ toString quantity)
    | [shirt, index_1, index_2, size] =>
      let size2 := if size = "XXL" then "2XL" else size
      appendSized g (shirt ++ "-" ++ index_2 ++ "-" ++ index_1)
        (size2 ++ "-" ++ toString quantity)
    | _ => .ok g
  else
    .ok (setScalar g SKU (toString quantity))

/-- The `except Exception` handler: fall back to the ungrouped bucket. -/
def commitAttempt (g : Grouping) (SKU : String) (quantity : Nat) :
    Except Unit Grouping → Grouping
  | .ok g2 => g2
  | .error _ => setScalar g SKU (toString quantity)

/-- One iteration of the `for item in cursor.fetchall()` loop. -/
def normalizeRow (g : Grouping) (SKU : String) (quantity : Nat) : Grouping :=
  commitAttempt g SKU quantity (normalizeAttempt g SKU quantity)

/-- The loop over all fetched `(sku, total quantity)` rows. -/
def cleanRows (g : Grouping) (rows : List (String × Nat)) : Grouping :=
  rows.foldl (fun g2 r => normalizeRow g2 r.1 r.2) g

def brandOf (SKU : String) : String := (pySplit '-' SKU).headD ""

def knownBrands : List String :=
  ["PREM", "PremJeans", "PremiereJeans", "PremTee", "PremiereLSTee"]

/-! ## The SQL aggregation feeding the normalizer

`SELECT sku, SUM(quantity) ... INNER JOIN ... WHERE is_new = 1 GROUP BY sku`:
items of new orders, with quantities summed per distinct raw SKU. -/

def dedupFirstAux : List String → List String → List String
  | _, [] => []
  | seen, x :: xs =>
    if x ∈ seen then dedupFirstAux seen xs else x :: dedupFirstAux (x :: seen) xs

def totalQty (items : List (String × Nat)) (s : String) : Nat :=
  ((items.filter (fun p => p.1 = s)).map (fun p => p.2)).sum

def sqlGroupBySku (items : List (String × Nat)) : List (String × Nat) :=
  (dedupFirstAux [] (items.map (fun p => p.1))).map (fun u => (u, totalQty items u))

/-! ## The ledger (`{store}_order` and `{store}_item` tables)

`order_date` strings are carried verbatim; the claims under verification do
not involve the datetime re-formatting. -/

structure OrderRow where
  order_number : String
  customer_name : String
  order_date : String
  is_new : Bool
deriving DecidableEq

structure ItemRow where
  ord_num : String
  sku : String
  quantity : Nat
deriving DecidableEq

structure Ledger where
  orders : List OrderRow
  items : List ItemRow
deriving DecidableEq

structure FetchedItem where
  sku : String
  name : String
  quantity : Nat
deriving DecidableEq

structure FetchedOrder where
  orderNumber : String
  custName : String
  orderDate : String
  items : List FetchedItem
deriving DecidableEq

structure LogEntry where
  order_number : String
  customer : String
  date : String
  is_new : Bool
  item_list : List (String × Nat)
deriving DecidableEq

/-- Models `if sku in sku_dict: sku = sku_dict[sku]` then
`if sku == '': sku = name`.  The obsolete-SKU remap table `sku_dict`
(module `sku_conversions`, shipped separately) is passed as an explicit
finite map. -/
def resolveSku (sku_dict : List (String × String)) (it : FetchedItem) : String :=
  let s := match sku_dict.lookup it.sku with
    | some v => v
    | none => it.sku
  if s = "" then it.name else s

def resolvedItems (sku_dict : List (String × String)) (o : FetchedOrder) :
    List (String × Nat) :=
  o.items.map (fun it => (resolveSku sku_dict it, it.quantity))

/-- The item-insert commits of the new-order branch: one `INSERT` + `commit()`
per item, so after each element of the returned list the database is in a
fully committed (observable) state. -/
def itemCommits (num : String) : Ledger → List (String × Nat) → List Ledger
  | _, [] => []
  | L, (s, q) :: rest =>
    let L2 : Ledger := ⟨L.orders, L.items ++ [⟨num, s, q⟩]⟩
    L2 :: itemCommits num L2 rest

/-- The committed database states produced by the new-order branch of
`parse_awaiting_shipment_order_data` (store.py 157-202): first the order row
is inserted and committed, then each item row is inserted and committed
separately. -/
def newOrderCommits (sku_dict : List (String × String)) (L : Ledger)
    (o : FetchedOrder) : List Ledger :=
  let L1 : Ledger := ⟨L.orders ++ [⟨o.orderNumber, o.custName, o.orderDate, true⟩], L.items⟩
  L1 :: itemCommits o.orderNumber L1 (resolvedItems sku_dict o)

/-- One iteration of the order loop of `parse_awaiting_shipment_order_data`
(store.py 84-208): classify the order against the ledger, update it, and
append to the in-memory log. -/
def parseOrder (sku_dict : List (String × String)) (L : Ledger)
    (log : List LogEntry) (o : FetchedOrder) : Ledger × List LogEntry :=
  match L.orders.find? (fun r => r.order_number = o.orderNumber) with
  | some _ =>
    -- UPDATE ... SET is_new = 0 WHERE order_number = %s
    let L2 : Ledger :=
      ⟨L.orders.map (fun r =>
          if r.order_number = o.orderNumber then
            ⟨r.order_number, r.customer_name, r.order_date, false⟩
          else r),
        L.items⟩
    (L2, log ++ [⟨o.orderNumber, o.custName, o.orderDate, false,
                   resolvedItems sku_dict o⟩])
  | none =>
    ((newOrderCommits sku_dict L o).getLastD L,
      log ++ [⟨o.orderNumber, o.custName, o.orderDate, true,
               resolvedItems sku_dict o⟩])

/-- The whole `for order in self.awaiting_shipment_orders_list` loop. -/
def parse_awaiting_shipment_order_data (sku_dict : List (String × String))
    (st : Ledger × List LogEntry) (orders : List FetchedOrder) :
    Ledger × List LogEntry :=
  orders.foldl (fun acc o => parseOrder sku_dict acc.1 acc.2 o) st

/-- The order numbers whose `is_new` flag is set: the scope of the pick list
and of both QC queries. -/
def newCohort (L : Ledger) : List String :=
  (L.orders.filter (fun r => r.is_new)).map (fun r => r.order_number)

/-- Models `SELECT sku, quantity FROM items INNER JOIN orders ON ord_num =
order_number WHERE is_new = 1` before the `GROUP BY` (store.py 221-227). -/
def sqlJoinNewItems (L : Ledger) : List (String × Nat) :=
  L.items.flatMap (fun i =>
    (L.orders.filter (fun o => o.order_number = i.ord_num ∧ o.is_new)).map
      (fun _ => (i.sku, i.quantity)))

/-- The full `clean_and_normalize_order_data` pipeline: join, group-by,
then the normalization loop starting from the current grouping dict. -/
def clean_and_normalize_order_data (L : Ledger) (g : Grouping) : Grouping :=
  cleanRows g (sqlGroupBySku (sqlJoinNewItems L))

/-! ## QC report 1: `customers_with_multiple_orders` (store.py 384-452) -/

/-- Number of the customer's orders with `is_new = 1`. -/
def newOrderCountFor (L : Ledger) (c : String) : Nat :=
  (L.orders.filter (fun o => o.is_new ∧ o.customer_name = c)).length

/-- The temporary table: customers having more than one new order
(`WHERE is_new = 1 GROUP BY customer_name HAVING name_count > 1`).
Only its membership is consumed (via `IN`). -/
def multiOrderCustomers (L : Ledger) : List String :=
  (dedupFirstAux []
      ((L.orders.filter (fun o => o.is_new)).map (fun o => o.customer_name))).filter
    (fun c => 1 < newOrderCountFor L c)

/-- Models `SELECT customer_name, order_number FROM orders WHERE customer_name IN
(SELECT customer_name FROM customer_with_multiple_order)` — note: no
`is_new` filter on this second query. -/
def multiOrderRows (L : Ledger) : List (String × String) :=
  (L.orders.filter (fun o => o.customer_name ∈ multiOrderCustomers L)).map
    (fun o => (o.customer_name, o.order_number))

/-- Models `order_info_dict[customer].append(order_num)` with first-insertion key
order, as Python dicts preserve. -/
def dictAppend : List (String × List String) → String → String →
    List (String × List String)
  | [], k, v => [(k, [v])]
  | (k0, l) :: rest, k, v =>
    if k0 = k then (k0, l ++ [v]) :: rest else (k0, l) :: dictAppend rest k v

def buildOrderInfoDict (rows : List (String × String)) :
    List (String × List String) :=
  rows.foldl (fun d r => dictAppend d r.1 r.2) []

def order_info_dict (L : Ledger) : List (String × List String) :=
  buildOrderInfoDict (multiOrderRows L)

/-- The text appended to the pick-list artifact by
`customers_with_multiple_orders`. -/
def customersReportBody (L : Ledger) : String :=
  let d := order_info_dict L
  "\nCUSTOMERS WITH MORE THAN ONE ORDER:\n\n" ++
    (if d = [] then "NO CUSTOMERS WITH MULTIPLE ORDERS"
     else d.foldl (fun acc kv =>
        acc ++ kv.1 ++ " - " ++ toString kv.2.length ++ " Orders:\n" ++
          String.join kv.2 ++ "\n\n") "")

/-! ## QC report 2: `orders_containing_an_item_having_a_quantity_greater_than_one`
(store.py 455-510): rows `(order_number, customer_name, sku, quantity)` with
`is_new = 1 AND quantity > 1`. -/

def multiQtyRows (L : Ledger) : List (String × String × String × Nat) :=
  L.items.flatMap (fun i =>
    ((L.orders.filter (fun o => o.order_number = i.ord_num ∧ o.is_new)).filter
        (fun _ => 1 < i.quantity)).map
      (fun o => (o.order_number, o.customer_name, i.sku, i.quantity)))

/-! ## The pick-list builder (`create_pick_list`, store.py 324-381) -/

def desired_order : List (String × Nat) :=
  [("SM", 1), ("ME", 2), ("LR", 3), ("XL", 4), ("2X", 5), ("3X", 6), ("4X", 7),
   ("5X", 8), ("6X", 9), ("7X", 10), ("8X", 11), ("32", 12), ("34", 13),
   ("36", 14), ("38", 15), ("40", 16), ("42", 17), ("44", 18), ("46", 19),
   ("48", 20), ("50", 21)]

def tableLookup : List (String × Nat) → String → Option Nat
  | [], _ => none
  | (k, v) :: rest, s => if k = s then some v else tableLookup rest s

/-- Models `desired_order[x[:2]]`: the sort key of one entry. -/
def sizePriority (x : String) : Option Nat := tableLookup desired_order (pyTake 2 x)

/-- Models `value.sort(key=lambda x: desired_order[x[:2]])` computes every key
first; a missing key raises `KeyError`. -/
def sortKeys : List String → Except String (List (Nat × String))
  | [] => .ok []
  | x :: xs =>
    match sizePriority x with
    | none => .error ("KeyError: " ++ pyTake 2 x)
    | some p => (sortKeys xs).map (fun r => (p, x) :: r)

def pySortBySize (l : List String) : Except String (List String) :=
  (sortKeys l).map (fun ps =>
    (sortLe (fun a b => Nat.ble a.1 b.1) ps).map (fun p => p.2))

/-- Models `size, quant = value[index].split('-')` then
`value[index] = size if int(quant) == 1 else size + ' (' + quant + ')'`. -/
def rewriteEntries : List String → Except String (List String)
  | [] => .ok []
  | e :: rest =>
    match pySplit '-' e with
    | [size, quant] =>
      match pyInt quant with
      | none => .error "ValueError: invalid literal for int()"
      | some n =>
        (rewriteEntries rest).map (fun rs =>
          (if n = 1 then size else size ++ " (" ++ quant ++ ")") :: rs)
    | _ => .error "ValueError: unpack"

/-- The line-building loop: separators `', '` between entries, none after
the last. -/
def joinLoop (acc : String) : List String → String
  | [] => acc
  | [x] => acc ++ x
  | x :: y :: rest => joinLoop (acc ++ x ++ ", ") (y :: rest)

/-- Process one `(key, value)` pair of the grouping dict: the produced line
and the value as the in-place mutations leave it. -/
def processGroup (key : String) : GroupValue → Except String (String × GroupValue)
  | .sizes l =>
    (pySortBySize l).bind fun sorted =>
      (rewriteEntries sorted).map (fun rendered =>
        (joinLoop (key ++ " -> ") rendered ++ "\n", .sizes rendered))
  | .scalar v =>
    match pyInt v with
    | none => .error "ValueError: invalid literal for int()"
    | some n =>
      .ok ((if 1 < n then key ++ " ... (" ++ v ++ ")" ++ "\n" else key ++ "\n"),
        .scalar v)

/-- The `for key, value in dict.items()` loop: collected lines plus the
grouping dict as mutated in place. -/
def processGroups : Grouping → Except String (List String × Grouping)
  | [] => .ok ([], [])
  | (k, v) :: rest =>
    (processGroup k v).bind fun lv =>
      (processGroups rest).map (fun lr => (lv.1 :: lr.1, (k, lv.2) :: lr.2))

/-- Models `create_pick_list`: build every line, then `pick_list.sort()`
(code-point lexicographic).  Returns the sorted lines and the grouping
state the in-place mutations leave behind. -/
def create_pick_list (g : Grouping) : Except String (List String × Grouping) :=
  (processGroups g).map (fun lg => (sortLe pyStrLe lg.1, lg.2))

/-- The file content written by `create_pick_list`: the file is opened with
mode `'w'`, so the previous content (`prior`) is discarded entirely. -/
def pickListFileContent (prior : String) (g : Grouping) : Except String String :=
  (create_pick_list g).map (fun lg => String.join lg.1)

def isErr {ε α : Type} : Except ε α → Bool
  | .error _ => true
  | .ok _ => false

instance exceptDecEq {ε α : Type} [DecidableEq ε] [DecidableEq α] :
    DecidableEq (Except ε α)
  | .error e, .error f =>
    if h : e = f then isTrue (by rw [h])
    else isFalse (by intro hh; injection hh; contradiction)
  | .error _, .ok _ => isFalse (fun h => Except.noConfusion h)
  | .ok _, .error _ => isFalse (fun h => Except.noConfusion h)
  | .ok a, .ok b =>
    if h : a = b then isTrue (by rw [h])
    else isFalse (by intro hh; injection hh; contradiction)

/-! ## Auxiliary definitions used by the claim statements -/

/-- The style token ends in one or more digits followed by the given
suffix (`NEW` or `P`). -/
def endsDigits (suffix : String) (style : String) : Prop :=
  ∃ ds : List Char, ds ≠ [] ∧ (∀ c ∈ ds, c.isDigit = true) ∧
    style.data = ds ++ suffix.data

/-- No order row carrying the given number is still flagged new. -/
def noNewWithNum (L : Ledger) (n : String) : Prop :=
  ∀ r ∈ L.orders, r.order_number = n → r.is_new = false

def c4order : FetchedOrder :=
  ⟨"1001", "Alice", "2024-01-02T03:04:05", [⟨"PREM-823-MED", "desc", 1⟩]⟩

def valsFor (s : String) (rows : List (String × String)) : List String :=
  (rows.filter (fun r => r.1 = s)).map (fun r => r.2)

def c3Ledger : Ledger :=
  ⟨[⟨"O1", "A", "d1", true⟩, ⟨"O2", "A", "d2", true⟩,
    ⟨"O3", "A", "d3", false⟩], []⟩

/-- The spec's wording of entry joining: entries joined with `", "`. -/
def specJoinComma : List String → String
  | [] => ""
  | [x] => x
  | x :: y :: rest => x ++ ", " ++ specJoinComma (y :: rest)

/-- The shape normalization gives every stored entry: `SIZE-QTY` with a
recognized size class and a numeric quantity. -/
def entryWFb (e : String) : Bool :=
  match pySplit '-' e with
  | [size, quant] =>
    (sizePriority e).isSome && (pyInt quant).isSome &&
      decide (2 ≤ size.data.length)
  | _ => false

def groupWFb : GroupValue → Bool
  | .sizes l => l.all entryWFb
  | .scalar q => (pyInt q).isSome

def groupingWFb (g : Grouping) : Bool := g.all (fun kv => groupWFb kv.2)

/-! ## Helper lemmas: splitting -/

theorem splitChars_ne_nil (sep : Char) (l : List Char) : splitChars sep l ≠ [] := by
  cases l with
  | nil => simp [splitChars]
  | cons c cs =>
    simp only [splitChars]
    split
    · simp
    · split <;> simp

theorem splitChars_sep_not_mem (sep : Char) (l : List Char) :
    ∀ p ∈ splitChars sep l, ∀ c ∈ p, c ≠ sep := by
  induction l with
  | nil => intro p hp c hc; simp [splitChars] at hp; simp [hp] at hc
  | cons a as ih =>
    intro p hp c hc
    simp only [splitChars] at hp
    split at hp
    · rcases List.mem_cons.mp hp with hp | hp
      · simp [hp] at hc
      · exact ih p hp c hc
    · rename_i hne
      rcases h : splitChars sep as with _ | ⟨q, qs⟩
      · exact absurd h (splitChars_ne_nil sep as)
      · rw [h] at hp
        rcases List.mem_cons.mp hp with hp | hp
        · subst hp
          rcases List.mem_cons.mp hc with hc | hc
          · exact fun hcc => hne (hc ▸ hcc)
          · exact ih q (h ▸ List.mem_cons_self q qs) c hc
        · exact ih p (h ▸ List.mem_cons_of_mem q hp) c hc

theorem splitChars_of_not_mem (sep : Char) (l : List Char)
    (h : ∀ c ∈ l, c ≠ sep) : splitChars sep l = [l] := by
  induction l with
  | nil => rfl
  | cons a as ih =>
    have ha : a ≠ sep := h a (List.mem_cons_self a as)
    have has : ∀ c ∈ as, c ≠ sep := fun c hc => h c (List.mem_cons_of_mem a hc)
    simp only [splitChars, if_neg ha, ih has]

theorem splitChars_singleton (sep : Char) (l p : List Char)
    (h : splitChars sep l = [p]) : l = p := by
  induction l generalizing p with
  | nil => simp [splitChars] at h; simp [h]
  | cons a as ih =>
    simp only [splitChars] at h
    split at h
    · have := splitChars_ne_nil sep as
      simp only [List.cons.injEq] at h
      exact absurd h.2 this
    · rcases hs : splitChars sep as with _ | ⟨q, qs⟩
      · exact absurd hs (splitChars_ne_nil sep as)
      · rw [hs] at h
        simp only [List.cons.injEq] at h
        rcases h with ⟨h1, h2⟩
        subst h2
        have := ih q hs
        simp [← h1, this]

theorem splitChars_pair (sep : Char) (l p q : List Char)
    (h : splitChars sep l = [p, q]) : l = p ++ sep :: q := by
  induction l generalizing p with
  | nil => simp [splitChars] at h
  | cons a as ih =>
    simp only [splitChars] at h
    split at h
    · rename_i ha
      simp only [List.cons.injEq] at h
      rcases h with ⟨h1, h2⟩
      have h3 : splitChars sep as = [q] := by simp [h2]
      have := splitChars_singleton sep as q h3
      simp [← h1, ha, this]
    · rcases hs : splitChars sep as with _ | ⟨r, rs⟩
      · exact absurd hs (splitChars_ne_nil sep as)
      · rw [hs] at h
        simp only [List.cons.injEq] at h
        rcases h with ⟨h1, h2⟩
        have h3 : splitChars sep as = [r, q] := by rw [hs, h2]
        have := ih r h3
        simp [← h1, this]

theorem splitChars_two_sep_mem (sep : Char) (l : List Char) (p q : List Char)
    (rest : List (List Char)) (h : splitChars sep l = p :: q :: rest) :
    sep ∈ l := by
  induction l generalizing p with
  | nil => simp [splitChars] at h
  | cons a as ih =>
    simp only [splitChars] at h
    split at h
    · rename_i ha; simp [ha]
    · rcases hs : splitChars sep as with _ | ⟨r, rs⟩
      · exact absurd hs (splitChars_ne_nil sep as)
      · rw [hs] at h
        simp only [List.cons.injEq] at h
        rcases h with ⟨h1, h2⟩
        have h3 : splitChars sep as = r :: q :: rest := by rw [hs, h2]
        exact List.mem_cons_of_mem a (ih r h3)

theorem pySplit_parts (sep : Char) (s : String) :
    ∀ p ∈ pySplit sep s, ∀ c ∈ p.data, c ≠ sep := by
  intro p hp c hc
  simp only [pySplit, List.mem_map] at hp
  rcases hp with ⟨l, hl, hpl⟩
  subst hpl
  exact splitChars_sep_not_mem sep s.data l hl c hc

theorem pySplit_of_not_mem (sep : Char) (s : String)
    (h : ∀ c ∈ s.data, c ≠ sep) : pySplit sep s = [s] := by
  simp [pySplit, splitChars_of_not_mem sep s.data h]

theorem pySplit_pair_data (sep : Char) (s a b : String)
    (h : pySplit sep s = [a, b]) : s.data = a.data ++ sep :: b.data := by
  simp only [pySplit] at h
  rcases hs : splitChars sep s.data with _ | ⟨p, ps⟩
  · exact absurd hs (splitChars_ne_nil sep s.data)
  · rw [hs] at h
    rcases ps with _ | ⟨q, qs⟩
    · simp at h
    · rcases qs with _ | ⟨r, rs⟩
      · simp at h
        have := splitChars_pair sep s.data p q hs
        rw [this, ← h.1, ← h.2]
      · simp at h

theorem pySplit_pair_sep_mem (sep : Char) (s a b : String)
    (h : pySplit sep s = [a, b]) : sep ∈ s.data := by
  rw [pySplit_pair_data sep s a b h]
  exact List.mem_append_right _ (List.mem_cons_self _ _)

/-! ## Helper lemmas: the stable sort -/

theorem insertLe_perm {α : Type} (le : α → α → Bool) (x : α) (l : List α) :
    (insertLe le x l).Perm (x :: l) := by
  induction l with
  | nil => exact List.Perm.refl _
  | cons y ys ih =>
    simp only [insertLe]
    split
    · exact List.Perm.refl _
    · exact ((ih.cons y).trans (List.Perm.swap x y ys))

theorem sortLe_perm {α : Type} (le : α → α → Bool) (l : List α) :
    (sortLe le l).Perm l := by
  induction l with
  | nil => exact List.Perm.refl _
  | cons x xs ih => exact (insertLe_perm le x (sortLe le xs)).trans (ih.cons x)

theorem insertLe_pairwise {α : Type} (le : α → α → Bool)
    (htot : ∀ a b, le a b = true ∨ le b a = true)
    (htrans : ∀ a b c, le a b = true → le b c = true → le a c = true)
    (x : α) (l : List α) (hl : List.Pairwise (fun a b => le a b = true) l) :
    List.Pairwise (fun a b => le a b = true) (insertLe le x l) := by
  induction l with
  | nil => simp [insertLe]
  | cons y ys ih =>
    simp only [insertLe]
    rcases hl with _ | ⟨hy, hys⟩
    split
    · rename_i hxy
      refine List.Pairwise.cons ?_ (List.Pairwise.cons hy hys)
      intro b hb
      rcases List.mem_cons.mp hb with hb | hb
      · exact hb ▸ hxy
      · exact htrans x y b hxy (hy b hb)
    · rename_i hxy
      have hyx : le y x = true := by
        rcases htot x y with h | h
        · exact absurd h hxy
        · exact h
      refine List.Pairwise.cons ?_ (ih hys)
      intro b hb
      have hb2 : b ∈ x :: ys := (insertLe_perm le x ys).mem_iff.mp hb
      rcases List.mem_cons.mp hb2 with hb3 | hb3
      · exact hb3 ▸ hyx
      · exact hy b hb3

theorem sortLe_pairwise {α : Type} (le : α → α → Bool)
    (htot : ∀ a b, le a b = true ∨ le b a = true)
    (htrans : ∀ a b c, le a b = true → le b c = true → le a c = true)
    (l : List α) : List.Pairwise (fun a b => le a b = true) (sortLe le l) := by
  induction l with
  | nil => simp [sortLe]
  | cons x xs ih => exact insertLe_pairwise le htot htrans x (sortLe le xs) ih

theorem strLeChars_total (a b : List Char) :
    strLeChars a b = true ∨ strLeChars b a = true := by
  induction a generalizing b with
  | nil => left; rfl
  | cons x xs ih =>
    cases b with
    | nil => right; rfl
    | cons y ys =>
      simp only [strLeChars]
      by_cases hxy : x.toNat < y.toNat
      · left; rw [if_pos hxy]
      · by_cases hyx : y.toNat < x.toNat
        · right; rw [if_pos hyx]
        · rcases ih ys with h | h
          · left; rw [if_neg hxy, if_neg hyx]; exact h
          · right; rw [if_neg hyx, if_neg hxy]; exact h

theorem strLeChars_trans (a b c : List Char)
    (hab : strLeChars a b = true) (hbc : strLeChars b c = true) :
    strLeChars a c = true := by
  induction a generalizing b c with
  | nil => rfl
  | cons x xs ih =>
    cases b with
    | nil => simp [strLeChars] at hab
    | cons y ys =>
      cases c with
      | nil => simp [strLeChars] at hbc
      | cons z zs =>
        simp only [strLeChars] at hab hbc ⊢
        by_cases hxy : x.toNat < y.toNat
        · by_cases hyz : y.toNat < z.toNat
          · rw [if_pos (Nat.lt_trans hxy hyz)]
          · by_cases hzy : z.toNat < y.toNat
            · rw [if_neg hyz, if_pos hzy] at hbc; exact absurd hbc (by simp)
            · have hyz2 : y.toNat = z.toNat := by omega
              rw [if_pos (hyz2 ▸ hxy)]
        · by_cases hyx : y.toNat < x.toNat
          · rw [if_neg hxy, if_pos hyx] at hab; exact absurd hab (by simp)
          · have hxy2 : x.toNat = y.toNat := by omega
            rw [if_neg hxy, if_neg hyx] at hab
            by_cases hyz : y.toNat < z.toNat
            · rw [if_pos (hxy2 ▸ hyz)]
            · by_cases hzy : z.toNat < y.toNat
              · rw [if_neg hyz, if_pos hzy] at hbc; exact absurd hbc (by simp)
              · rw [if_neg hyz, if_neg hzy] at hbc
                have h1 : ¬ x.toNat < z.toNat := by omega
                have h2 : ¬ z.toNat < x.toNat := by omega
                rw [if_neg h1, if_neg h2]
                exact ih ys zs hab hbc

theorem pyStrLe_total (a b : String) : pyStrLe a b = true ∨ pyStrLe b a = true :=
  strLeChars_total a.data b.data

theorem pyStrLe_trans (a b c : String) (hab : pyStrLe a b = true)
    (hbc : pyStrLe b c = true) : pyStrLe a c = true :=
  strLeChars_trans a.data b.data c.data hab hbc

/-! ## Helper lemmas: `Except` plumbing -/

theorem isErr_map {ε α β : Type} (f : α → β) (x : Except ε α) :
    isErr (x.map f) = isErr x := by
  cases x <;> rfl

theorem isErr_bind_left {ε α β : Type} (f : α → Except ε β) (x : Except ε α)
    (h : isErr x = true) : isErr (x.bind f) = true := by
  cases x with
  | error e => rfl
  | ok a => simp [isErr] at h

/-! ## Helper lemmas: the grouping dictionary -/

theorem lookupG_setScalar_self (g : Grouping) (k v : String) :
    lookupG (setScalar g k v) k = some (.scalar v) := by
  induction g with
  | nil => simp [setScalar, lookupG]
  | cons kv rest ih =>
    rcases kv with ⟨k0, v0⟩
    simp only [setScalar]
    split
    · simp [lookupG]
    · rename_i hne
      simp only [lookupG, if_neg hne]
      exact ih

theorem lookupG_setScalar_ne (g : Grouping) (k v s : String) (h : k ≠ s) :
    lookupG (setScalar g k v) s = lookupG g s := by
  induction g with
  | nil => simp [setScalar, lookupG, h]
  | cons kv rest ih =>
    rcases kv with ⟨k0, v0⟩
    simp only [setScalar]
    split
    · rename_i he
      subst he
      simp [lookupG, h]
    · simp only [lookupG]
      split
      · rfl
      · exact ih

theorem appendSized_preserves_scalar (g : Grouping) (k e : String) (g2 : Grouping)
    (s v : String) (hg : lookupG g s = some (.scalar v))
    (hok : appendSized g k e = .ok g2) : lookupG g2 s = some (.scalar v) := by
  induction g generalizing g2 with
  | nil => simp [lookupG] at hg
  | cons kv rest ih =>
    rcases kv with ⟨k0, v0⟩
    simp only [appendSized] at hok
    split at hok
    · rename_i hk0
      subst hk0
      cases v0 with
      | sizes l =>
        simp only [Except.ok.injEq] at hok
        subst hok
        simp only [lookupG] at hg ⊢
        by_cases hks : k0 = s
        · rw [if_pos hks] at hg; simp at hg
        · rw [if_neg hks] at hg ⊢; exact hg
      | scalar q => exact absurd hok (by simp)
    · rename_i hk0
      rcases hr : appendSized rest k e with _ | r
      · rw [hr] at hok; exact absurd hok (by simp [Except.map])
      · rw [hr] at hok
        simp only [Except.map, Except.ok.injEq] at hok
        subst hok
        simp only [lookupG] at hg ⊢
        by_cases hks : k0 = s
        · rw [if_pos hks] at hg ⊢; exact hg
        · rw [if_neg hks] at hg ⊢; exact ih r hg hr

theorem Except_bind_ok {ε α β : Type} {x : Except ε α} {f : α → Except ε β}
    {b : β} (h : x.bind f = .ok b) : ∃ a, x = .ok a ∧ f a = .ok b := by
  cases x with
  | error e => exact absurd h (by simp [Except.bind])
  | ok a => exact ⟨a, rfl, h⟩

theorem normalizeAttempt_ok_shape (g : Grouping) (SKU : String) (q : Nat)
    (g2 : Grouping) (h : normalizeAttempt g SKU q = .ok g2) :
    g2 = g ∨ g2 = setScalar g SKU (toString q) ∨
      ∃ k e, appendSized g k e = .ok g2 := by
  simp only [normalizeAttempt] at h
  split at h
  · split at h
    · rcases Except_bind_ok h with ⟨strip, _, h2⟩
      exact Or.inr (Or.inr ⟨_, _, h2⟩)
    · exact Or.inr (Or.inr ⟨_, _, h⟩)
    · simp only [Except.ok.injEq] at h; exact Or.inl h.symm
  · split at h
    · split at h
      · exact Or.inr (Or.inr ⟨_, _, h⟩)
      · exact absurd h (by simp)
    · split at h
      · split at h
        · exact Or.inr (Or.inr ⟨_, _, h⟩)
        · exact Or.inr (Or.inr ⟨_, _, h⟩)
        · simp only [Except.ok.injEq] at h; exact Or.inl h.symm
      · simp only [Except.ok.injEq] at h; exact Or.inr (Or.inl h.symm)

theorem normalizeRow_preserves_scalar (g : Grouping) (SKU : String) (q : Nat)
    (s v : String) (hne : SKU ≠ s) (hg : lookupG g s = some (.scalar v)) :
    lookupG (normalizeRow g SKU q) s = some (.scalar v) := by
  unfold normalizeRow
  rcases hA : normalizeAttempt g SKU q with _ | g2
  · simp only [commitAttempt]
    rw [lookupG_setScalar_ne g SKU (toString q) s hne]
    exact hg
  · simp only [commitAttempt]
    rcases normalizeAttempt_ok_shape g SKU q g2 hA with h | h | ⟨k, e, h⟩
    · rw [h]; exact hg
    · rw [h, lookupG_setScalar_ne g SKU (toString q) s hne]; exact hg
    · exact appendSized_preserves_scalar g k e g2 s v hg h

theorem cleanRows_preserves_scalar (rows : List (String × Nat)) (g : Grouping)
    (s v : String) (hne : ∀ r ∈ rows, r.1 ≠ s)
    (hg : lookupG g s = some (.scalar v)) :
    lookupG (cleanRows g rows) s = some (.scalar v) := by
  induction rows generalizing g with
  | nil => exact hg
  | cons r rest ih =>
    simp only [cleanRows, List.foldl_cons]
    exact ih (normalizeRow g r.1 r.2)
      (fun x hx => hne x (List.mem_cons_of_mem r hx))
      (normalizeRow_preserves_scalar g r.1 r.2 s v
        (hne r (List.mem_cons_self r rest)) hg)

/-! ## Helper lemmas: brand dispatch of the normalizer -/

theorem normalizeRow_unknown_brand (g : Grouping) (SKU : String) (q : Nat)
    (h : brandOf SKU ∉ knownBrands) :
    normalizeRow g SKU q = setScalar g SKU (toString q) := by
  simp only [knownBrands, List.mem_cons, List.not_mem_nil, or_false, not_or] at h
  obtain ⟨h1, h2, h3, h4, h5⟩ := h
  unfold normalizeRow normalizeAttempt brandOf at *
  rw [if_neg h1, if_neg (by exact fun hc => hc.elim h2 h3),
    if_neg (by exact fun hc => hc.elim h4 h5)]
  rfl

theorem cleanRows_scalar_of_mem (rows : List (String × Nat)) (g : Grouping)
    (s : String) (t : Nat) (hnd : (rows.map (fun p => p.1)).Nodup)
    (hmem : (s, t) ∈ rows) (hunk : brandOf s ∉ knownBrands) :
    lookupG (cleanRows g rows) s = some (.scalar (toString t)) := by
  induction rows generalizing g with
  | nil => simp at hmem
  | cons r rest ih =>
    rcases List.mem_cons.mp hmem with hr | hr
    · subst hr
      simp only [cleanRows, List.foldl_cons]
      have hni : ∀ x ∈ rest, x.1 ≠ s := by
        intro x hx hxe
        have : s ∈ rest.map (fun p => p.1) := by
          exact hxe ▸ List.mem_map_of_mem _ hx
        simp only [List.map_cons, List.nodup_cons] at hnd
        exact hnd.1 this
      refine cleanRows_preserves_scalar rest _ s (toString t) hni ?_
      rw [normalizeRow_unknown_brand g s t hunk]
      exact lookupG_setScalar_self g s (toString t)
    · have hrs : r.1 ≠ s := by
        intro hre
        have : s ∈ rest.map (fun p => p.1) := by
          exact List.mem_map_of_mem _ hr
        simp only [List.map_cons, List.nodup_cons] at hnd
        exact hnd.1 (hre ▸ this)
      simp only [cleanRows, List.foldl_cons]
      exact ih (normalizeRow g r.1 r.2)
        (by simpa using hnd.of_cons) hr

/-! ## Helper lemmas: SQL `GROUP BY` model -/

theorem mem_dedupFirstAux (seen l : List String) (x : String) :
    x ∈ dedupFirstAux seen l ↔ x ∈ l ∧ x ∉ seen := by
  induction l generalizing seen with
  | nil => simp [dedupFirstAux]
  | cons a as ih =>
    simp only [dedupFirstAux]
    split
    · rename_i ha
      rw [ih]
      simp only [List.mem_cons]
      constructor
      · exact fun ⟨hx, hs⟩ => ⟨Or.inr hx, hs⟩
      · rintro ⟨hx | hx, hs⟩
        · exact absurd (hx ▸ ha) hs
        · exact ⟨hx, hs⟩
    · rename_i ha
      simp only [List.mem_cons, ih]
      constructor
      · rintro (hx | ⟨hx, hs⟩)
        · exact ⟨Or.inl hx, hx ▸ ha⟩
        · simp only [List.mem_cons, not_or] at hs
          exact ⟨Or.inr hx, hs.2⟩
      · rintro ⟨hx | hx, hs⟩
        · exact Or.inl hx
        · by_cases hxa : x = a
          · exact Or.inl hxa
          · exact Or.inr ⟨hx, by simp [List.mem_cons, hxa, hs]⟩

theorem nodup_dedupFirstAux (seen l : List String) :
    (dedupFirstAux seen l).Nodup := by
  induction l generalizing seen with
  | nil => simp [dedupFirstAux]
  | cons a as ih =>
    simp only [dedupFirstAux]
    split
    · exact ih seen
    · refine List.Nodup.cons ?_ (ih (a :: seen))
      intro ha
      exact ((mem_dedupFirstAux (a :: seen) as a).mp ha).2
        (List.mem_cons_self a seen)

theorem sqlGroupBySku_keys (items : List (String × Nat)) :
    (sqlGroupBySku items).map (fun p => p.1) =
      dedupFirstAux [] (items.map (fun p => p.1)) := by
  simp [sqlGroupBySku, List.map_map, Function.comp_def]

theorem sqlGroupBySku_nodup (items : List (String × Nat)) :
    ((sqlGroupBySku items).map (fun p => p.1)).Nodup := by
  rw [sqlGroupBySku_keys]
  exact nodup_dedupFirstAux [] _

theorem mem_sqlGroupBySku (items : List (String × Nat)) (s : String)
    (h : s ∈ items.map (fun p => p.1)) :
    (s, totalQty items s) ∈ sqlGroupBySku items := by
  have : s ∈ dedupFirstAux [] (items.map (fun p => p.1)) :=
    (mem_dedupFirstAux [] _ s).mpr ⟨h, by simp⟩
  exact List.mem_map_of_mem (fun u => (u, totalQty items u)) this

theorem normalizeRow_jeans_mismatch (g : Grouping) (SKU : String) (q : Nat)
    (hb : brandOf SKU = "PremJeans" ∨ brandOf SKU = "PremiereJeans")
    (hl : (pySplit '-' SKU).length ≠ 3) :
    normalizeRow g SKU q = setScalar g SKU (toString q) := by
  unfold brandOf at hb
  have hP : (pySplit '-' SKU).headD "" ≠ "PREM" := by
    rcases hb with h | h <;> (rw [h]; decide)
  simp only [normalizeRow, normalizeAttempt]
  rw [if_neg hP, if_pos hb]
  rcases hsp : pySplit '-' SKU with _ | ⟨a, _ | ⟨b, _ | ⟨c, _ | ⟨d, rest⟩⟩⟩⟩
  · rfl
  · rfl
  · rfl
  · exact absurd (by simp [hsp]) hl
  · rfl

theorem normalizeRow_segment_drop (g : Grouping) (SKU : String) (q : Nat)
    (hb : brandOf SKU = "PREM" ∨ brandOf SKU = "PremTee" ∨
      brandOf SKU = "PremiereLSTee")
    (h3 : (pySplit '-' SKU).length ≠ 3) (h4 : (pySplit '-' SKU).length ≠ 4) :
    normalizeRow g SKU q = g := by
  unfold brandOf at hb
  simp only [normalizeRow, normalizeAttempt]
  rcases hb with h | hb2
  · rw [if_pos h]
    rcases hsp : pySplit '-' SKU with _ | ⟨a, _ | ⟨b, _ | ⟨c, _ | ⟨d, _ | ⟨e, rest⟩⟩⟩⟩⟩
    · rfl
    · rfl
    · rfl
    · exact absurd (by simp [hsp]) h3
    · exact absurd (by simp [hsp]) h4
    · rfl
  · have hP : (pySplit '-' SKU).headD "" ≠ "PREM" := by
      rcases hb2 with h | h <;> (rw [h]; decide)
    have hJ : ¬ ((pySplit '-' SKU).headD "" = "PremJeans" ∨
        (pySplit '-' SKU).headD "" = "PremiereJeans") := by
      rcases hb2 with h | h <;> (rw [h]; decide)
    rw [if_neg hP, if_neg hJ, if_pos hb2]
    rcases hsp : pySplit '-' SKU with _ | ⟨a, _ | ⟨b, _ | ⟨c, _ | ⟨d, _ | ⟨e, rest⟩⟩⟩⟩⟩
    · rfl
    · rfl
    · rfl
    · exact absurd (by simp [hsp]) h3
    · exact absurd (by simp [hsp]) h4
    · rfl

/-! ## Claim C1 -/

/-- C1 (counterexample): the SKU `PREM-823` has the known brand prefix
`PREM` with a mismatching segment count (2), yet normalization adds no
entry for it at all — the `if len == 3 / elif len == 4` chain of the `PREM`
branch has no else, so the row is silently dropped instead of being placed
in the ungrouped fallback bucket, refuting the claim that every such SKU
lands under its full raw text. -/
theorem c1_malformed_sku_counterexample :
    cleanRows [] (sqlGroupBySku [("PREM-823", 2)]) = [] ∧
      lookupG (cleanRows [] (sqlGroupBySku [("PREM-823", 2)])) "PREM-823" = none := by
  constructor
  · rfl
  · rfl

/-- C1 (amended): an item whose SKU has an unknown brand prefix is placed in
the ungrouped fallback bucket keyed by its full raw SKU, with quantities of
repeated occurrences summed by the SQL `GROUP BY`; a `PremJeans` /
`PremiereJeans` SKU whose segment count is not 3 raises a tuple-unpacking
error that is caught and diverted to the same fallback bucket; but a `PREM`
/ `PremTee` / `PremiereLSTee` SKU whose segment count is neither 3 nor 4 is
silently dropped (the grouping map is left unchanged).  Normalization is a
total function, so it never aborts the run on a malformed SKU. -/
theorem c1_normalization_fallback :
    (∀ (g : Grouping) (SKU : String) (q : Nat),
      brandOf SKU ∉ knownBrands →
      normalizeRow g SKU q = setScalar g SKU (toString q))
    ∧ (∀ (g : Grouping) (SKU : String) (q : Nat),
      (brandOf SKU = "PremJeans" ∨ brandOf SKU = "PremiereJeans") →
      (pySplit '-' SKU).length ≠ 3 →
      normalizeRow g SKU q = setScalar g SKU (toString q))
    ∧ (∀ (g : Grouping) (SKU : String) (q : Nat),
      (brandOf SKU = "PREM" ∨ brandOf SKU = "PremTee" ∨
        brandOf SKU = "PremiereLSTee") →
      (pySplit '-' SKU).length ≠ 3 → (pySplit '-' SKU).length ≠ 4 →
      normalizeRow g SKU q = g)
    ∧ (∀ (items : List (String × Nat)) (s : String),
      s ∈ items.map (fun p => p.1) →
      brandOf s ∉ knownBrands →
      lookupG (cleanRows [] (sqlGroupBySku items)) s =
        some (.scalar (toString (totalQty items s)))) := by
  refine ⟨normalizeRow_unknown_brand, normalizeRow_jeans_mismatch,
    normalizeRow_segment_drop, ?_⟩
  intro items s hmem hunk
  exact cleanRows_scalar_of_mem (sqlGroupBySku items) [] s (totalQty items s)
    (sqlGroupBySku_nodup items) (mem_sqlGroupBySku items s hmem) hunk

/-- C1 (witness): the amended theorem applied at concrete inputs — an
unknown-brand SKU falls back to the raw-SKU bucket, a short `PremJeans` SKU
falls back after the caught unpack error, a 2-segment `PREM` SKU is
dropped, and repeated occurrences of an unknown SKU have their quantities
summed (2 + 3 = 5). -/
theorem c1_normalization_fallback_witness :
    normalizeRow [] "WIDGET-9" 3 = setScalar [] "WIDGET-9" "3"
    ∧ normalizeRow [] "PremJeans-BLK" 7 = setScalar [] "PremJeans-BLK" "7"
    ∧ normalizeRow [("X", .scalar "1")] "PREM-823" 2 = [("X", .scalar "1")]
    ∧ lookupG (cleanRows [] (sqlGroupBySku [("FOO-1", 2), ("FOO-1", 3)])) "FOO-1" =
        some (.scalar "5") := by
  refine ⟨?_, ?_, ?_, ?_⟩
  · exact c1_normalization_fallback.1 [] "WIDGET-9" 3 (by decide)
  · exact c1_normalization_fallback.2.1 [] "PremJeans-BLK" 7 (Or.inl (by decide))
      (by decide)
  · exact c1_normalization_fallback.2.2.1 [("X", .scalar "1")] "PREM-823" 2
      (Or.inl (by decide)) (by decide) (by decide)
  · have := c1_normalization_fallback.2.2.2 [("FOO-1", 2), ("FOO-1", 3)] "FOO-1"
      (by decide) (by decide)
    rw [this]
    rfl

/-! ## Claim C7 -/

theorem pyTakeLast_append (ds : List Char) (suf : String) (style : String)
    (h : style.data = ds ++ suf.data) :
    pyTakeLast suf.data.length style = suf := by
  unfold pyTakeLast
  rw [h, List.length_append, Nat.add_sub_cancel, List.drop_left]

theorem prem_strip_cond_true (style : String)
    (h : endsDigits "NEW" style ∨ endsDigits "P" style) :
    (if pyTakeLast 3 style = "NEW" then Except.ok true
     else
       match pyLastChar style with
       | none => Except.error ()
       | some c => Except.ok (c = 'P')) = (Except.ok true : Except Unit Bool) := by
  rcases h with ⟨ds, _, _, hdata⟩ | ⟨ds, _, _, hdata⟩
  · have : pyTakeLast 3 style = "NEW" := pyTakeLast_append ds "NEW" style hdata
    rw [if_pos this]
  · by_cases hN : pyTakeLast 3 style = "NEW"
    · rw [if_pos hN]
    · rw [if_neg hN]
      have hlast : pyLastChar style = some 'P' := by
        unfold pyLastChar
        rw [hdata]
        exact List.getLast?_concat ds
      rw [hlast]
      simp

/-- C7: a `PREM` SKU of three segments whose style ends in digits+`NEW` or
digits+`P` is recorded under the group key `PREM-<first 3 characters of the
style>` with the size (segment 3) as the entry label; in particular
`PREM-150NEW-XL` and `PREM-150-XL` group together under `PREM-150`. -/
theorem c7_prem_style_suffix :
    (∀ (g : Grouping) (q : Nat) (sku style size : String),
      pySplit '-' sku = ["PREM", style, size] →
      (endsDigits "NEW" style ∨ endsDigits "P" style) →
      normalizeRow g sku q =
        commitAttempt g sku q
          (appendSized g ("PREM-" ++ pyTake 3 style) (size ++ "-" ++ toString q)))
    ∧ cleanRows [] [("PREM-150NEW-XL", 1), ("PREM-150-XL", 2)] =
        [("PREM-150", GroupValue.sizes ["XL-1", "XL-2"])] := by
  constructor
  · intro g q sku style size hsplit hends
    have hA : normalizeAttempt g sku q =
        appendSized g ("PREM" ++ "-" ++ pyTake 3 style)
          (size ++ "-" ++ toString q) := by
      simp only [normalizeAttempt]
      rw [hsplit]
      show ((if pyTakeLast 3 style = "NEW" then Except.ok true
          else
            match pyLastChar style with
            | none => Except.error ()
            | some c => Except.ok (c = 'P')).bind fun strip =>
          appendSized g ("PREM" ++ "-" ++ if strip then pyTake 3 style else style)
            (size ++ "-" ++ toString q)) = _
      rw [prem_strip_cond_true style hends]
      rfl
    have hkey : "PREM" ++ "-" ++ pyTake 3 style = "PREM-" ++ pyTake 3 style := rfl
    unfold normalizeRow
    rw [hA, hkey]
  · rfl

/-- C7 (witness): the theorem applied to `PREM-150NEW-XL` (digits+`NEW`)
and `PREM-301P-5XL` (digits+`P`) with the hypotheses discharged. -/
theorem c7_prem_style_suffix_witness :
    normalizeRow [] "PREM-150NEW-XL" 1 =
      commitAttempt [] "PREM-150NEW-XL" 1
        (appendSized [] ("PREM-" ++ pyTake 3 "150NEW") ("XL" ++ "-" ++ toString 1))
    ∧ normalizeRow [] "PREM-301P-5XL" 2 =
      commitAttempt [] "PREM-301P-5XL" 2
        (appendSized [] ("PREM-" ++ pyTake 3 "301P") ("5XL" ++ "-" ++ toString 2)) := by
  constructor
  · exact c7_prem_style_suffix.1 [] 1 "PREM-150NEW-XL" "150NEW" "XL" (by decide)
      (Or.inl ⟨['1', '5', '0'], by decide, by decide, by decide⟩)
  · exact c7_prem_style_suffix.1 [] 2 "PREM-301P-5XL" "301P" "5XL" (by decide)
      (Or.inr ⟨['3', '0', '1'], by decide, by decide, by decide⟩)

/-! ## Claim C8 -/

/-- C8: a `PremTee` / `PremiereLSTee` SKU with three segments has size
`XXL` rewritten to `2XL` and group key `<style>-<brand>`; with four
segments, `XXL` is likewise rewritten and the group key is
`<brand>-<seg2>-<seg1>` (the two middle segments swapped relative to the
raw SKU); in particular `PremTee-524-XXL` is recorded with size label
`2XL`. -/
theorem c8_premtee_xxl_rewrite :
    (∀ (g : Grouping) (q : Nat) (sku brand style size : String),
      (brand = "PremTee" ∨ brand = "PremiereLSTee") →
      pySplit '-' sku = [brand, style, size] →
      normalizeRow g sku q =
        commitAttempt g sku q
          (appendSized g (style ++ "-" ++ brand)
            ((if size = "XXL" then "2XL" else size) ++ "-" ++ toString q)))
    ∧ (∀ (g : Grouping) (q : Nat) (sku brand seg1 seg2 size : String),
      (brand = "PremTee" ∨ brand = "PremiereLSTee") →
      pySplit '-' sku = [brand, seg1, seg2, size] →
      normalizeRow g sku q =
        commitAttempt g sku q
          (appendSized g (brand ++ "-" ++ seg2 ++ "-" ++ seg1)
            ((if size = "XXL" then "2XL" else size) ++ "-" ++ toString q)))
    ∧ cleanRows [] [("PremTee-524-XXL", 1)] =
        [("524-PremTee", GroupValue.sizes ["2XL-1"])] := by
  refine ⟨?_, ?_, ?_⟩
  · intro g q sku brand style size hb hsplit
    unfold normalizeRow
    rcases hb with h | h <;> subst h <;>
      (simp only [normalizeAttempt]; rw [hsplit]; rfl)
  · intro g q sku brand seg1 seg2 size hb hsplit
    unfold normalizeRow
    rcases hb with h | h <;> subst h <;>
      (simp only [normalizeAttempt]; rw [hsplit]; rfl)
  · rfl

/-- C8 (witness): the theorem applied to `PremTee-524-XXL` (3 segments) and
`PremiereLSTee-GRN-012-XXL` (4 segments). -/
theorem c8_premtee_xxl_rewrite_witness :
    normalizeRow [] "PremTee-524-XXL" 1 =
      commitAttempt [] "PremTee-524-XXL" 1
        (appendSized [] ("524" ++ "-" ++ "PremTee")
          ((if "XXL" = "XXL" then "2XL" else "XXL") ++ "-" ++ toString 1))
    ∧ normalizeRow [] "PremiereLSTee-GRN-012-XXL" 2 =
      commitAttempt [] "PremiereLSTee-GRN-012-XXL" 2
        (appendSized [] ("PremiereLSTee" ++ "-" ++ "012" ++ "-" ++ "GRN")
          ((if "XXL" = "XXL" then "2XL" else "XXL") ++ "-" ++ toString 2)) := by
  constructor
  · exact c8_premtee_xxl_rewrite.1 [] 1 "PremTee-524-XXL" "PremTee" "524" "XXL"
      (Or.inl rfl) (by decide)
  · exact c8_premtee_xxl_rewrite.2.1 [] 2 "PremiereLSTee-GRN-012-XXL"
      "PremiereLSTee" "GRN" "012" "XXL" (Or.inr rfl) (by decide)

/-! ## Claim C6 -/

theorem sortKeys_err (l : List String) (e : String) (he : e ∈ l)
    (hbad : sizePriority e = none) : isErr (sortKeys l) = true := by
  induction l with
  | nil => simp at he
  | cons x xs ih =>
    simp only [sortKeys]
    rcases List.mem_cons.mp he with he | he
    · subst he
      rw [hbad]
      rfl
    · rcases hx : sizePriority x with _ | p
      · rfl
      · rw [isErr_map]
        exact ih he

theorem processGroup_err_of_bad_entry (key : String) (l : List String)
    (e : String) (he : e ∈ l) (hbad : sizePriority e = none) :
    isErr (processGroup key (.sizes l)) = true := by
  simp only [processGroup]
  apply isErr_bind_left
  simp only [pySortBySize, isErr_map]
  exact sortKeys_err l e he hbad

theorem processGroups_err (g : Grouping) (k : String) (v : GroupValue)
    (hmem : (k, v) ∈ g) (herr : isErr (processGroup k v) = true) :
    isErr (processGroups g) = true := by
  induction g with
  | nil => simp at hmem
  | cons kv rest ih =>
    rcases kv with ⟨k0, v0⟩
    simp only [processGroups]
    rcases List.mem_cons.mp hmem with he | he
    · have he2 : k0 = k ∧ v0 = v := by
        rw [Prod.mk.injEq] at he
        exact ⟨he.1.symm, he.2.symm⟩
      rw [he2.1, he2.2]
      exact isErr_bind_left _ _ herr
    · rcases hp : processGroup k0 v0 with _ | lv
      · rfl
      · simp only [Except.bind, isErr_map]
        exact ih he

theorem isErr_create_pick_list (g : Grouping) :
    isErr (create_pick_list g) = isErr (processGroups g) := by
  simp only [create_pick_list, isErr_map]

/-- C6: if any entry of any list-valued group has a first-two-character
size class that is not a key of the `desired_order` table, then
`create_pick_list` fails with an error (the uncaught `KeyError` raised by
the sort key), rather than silently mis-sorting or skipping the entry. -/
theorem c6_unrecognized_size_fails (g : Grouping) (key : String)
    (l : List String) (e : String) (hmem : (key, GroupValue.sizes l) ∈ g)
    (he : e ∈ l) (hbad : sizePriority e = none) :
    isErr (create_pick_list g) = true := by
  rw [isErr_create_pick_list]
  exact processGroups_err g key (.sizes l) hmem
    (processGroup_err_of_bad_entry key l e he hbad)

/-- C6 (witness): a grouping containing the size label `WAT-1` (class
`WA`, absent from the table) makes pick-list construction fail. -/
theorem c6_unrecognized_size_fails_witness :
    isErr (create_pick_list
      [("PREM-100", GroupValue.sizes ["MED-1"]), ("K", GroupValue.sizes ["WAT-1"])]) = true :=
  c6_unrecognized_size_fails
    [("PREM-100", GroupValue.sizes ["MED-1"]), ("K", GroupValue.sizes ["WAT-1"])]
    "K" ["WAT-1"] "WAT-1" (by decide) (by decide) (by decide)

/-! ## Helper lemmas: the ledger -/

theorem itemCommits_getLastD (num : String) (L : Ledger)
    (rs : List (String × Nat)) :
    (itemCommits num L rs).getLastD L =
      ⟨L.orders, L.items ++ rs.map (fun p => (⟨num, p.1, p.2⟩ : ItemRow))⟩ := by
  induction rs generalizing L with
  | nil => simp [itemCommits]
  | cons r rest ih =>
    rcases r with ⟨s, q⟩
    simp only [itemCommits, List.getLastD_cons, List.map_cons]
    rw [ih]
    simp [List.append_assoc]

theorem itemCommits_length (num : String) (L : Ledger)
    (rs : List (String × Nat)) :
    (itemCommits num L rs).length = rs.length := by
  induction rs generalizing L with
  | nil => rfl
  | cons r rest ih =>
    rcases r with ⟨s, q⟩
    simp only [itemCommits, List.length_cons, ih]

theorem newOrderCommits_getLastD (d : List (String × String)) (L : Ledger)
    (o : FetchedOrder) :
    (newOrderCommits d L o).getLastD L =
      ⟨L.orders ++ [⟨o.orderNumber, o.custName, o.orderDate, true⟩],
       L.items ++ (resolvedItems d o).map
         (fun p => (⟨o.orderNumber, p.1, p.2⟩ : ItemRow))⟩ := by
  simp only [newOrderCommits, List.getLastD_cons]
  exact itemCommits_getLastD o.orderNumber _ (resolvedItems d o)

theorem parseOrder_new (d : List (String × String)) (L : Ledger)
    (log : List LogEntry) (o : FetchedOrder)
    (h : ∀ r ∈ L.orders, r.order_number ≠ o.orderNumber) :
    parseOrder d L log o =
      (⟨L.orders ++ [⟨o.orderNumber, o.custName, o.orderDate, true⟩],
        L.items ++ (resolvedItems d o).map
          (fun p => (⟨o.orderNumber, p.1, p.2⟩ : ItemRow))⟩,
       log ++ [⟨o.orderNumber, o.custName, o.orderDate, true,
                resolvedItems d o⟩]) := by
  unfold parseOrder
  have hf : L.orders.find? (fun r => r.order_number = o.orderNumber) = none := by
    rw [List.find?_eq_none]
    intro x hx
    simpa using h x hx
  rw [hf, newOrderCommits_getLastD]

theorem parseOrder_found (d : List (String × String)) (L : Ledger)
    (log : List LogEntry) (o : FetchedOrder)
    (h : ∃ r ∈ L.orders, r.order_number = o.orderNumber) :
    parseOrder d L log o =
      (⟨L.orders.map (fun r =>
          if r.order_number = o.orderNumber then
            ⟨r.order_number, r.customer_name, r.order_date, false⟩
          else r),
        L.items⟩,
       log ++ [⟨o.orderNumber, o.custName, o.orderDate, false,
                resolvedItems d o⟩]) := by
  unfold parseOrder
  rcases hf : L.orders.find? (fun r => r.order_number = o.orderNumber) with _ | r
  · exfalso
    rw [List.find?_eq_none] at hf
    rcases h with ⟨r, hr, hnum⟩
    exact hf r hr (by simpa using hnum)
  · rw [hf]

theorem newCohort_not_mem (L : Ledger) (n : String) (h : noNewWithNum L n) :
    n ∉ newCohort L := by
  intro hmem
  simp only [newCohort, List.mem_map, List.mem_filter] at hmem
  rcases hmem with ⟨r, ⟨hr, hnew⟩, hnum⟩
  rw [h r hr hnum] at hnew
  exact absurd hnew (by simp)

theorem sqlJoinNewItems_drop (os : List OrderRow) (its : List ItemRow)
    (n : String) (h : ∀ r ∈ os, r.order_number = n → r.is_new = false) :
    sqlJoinNewItems ⟨os, its⟩ =
      sqlJoinNewItems ⟨os, its.filter (fun i => i.ord_num ≠ n)⟩ := by
  induction its with
  | nil => rfl
  | cons i rest ih =>
    simp only [sqlJoinNewItems, List.flatMap_cons, List.filter_cons] at ih ⊢
    by_cases hi : i.ord_num = n
    · have hnil : os.filter
          (fun o => o.order_number = i.ord_num ∧ o.is_new) = [] := by
        rw [List.filter_eq_nil_iff]
        intro r hr
        simp only [decide_eq_true_eq, not_and]
        intro hnum
        rw [h r hr (hi ▸ hnum)]
        simp
      rw [hnil]
      simp only [List.map_nil, List.nil_append]
      rw [if_neg (by simp [hi])]
      exact ih
    · rw [if_pos (by simp [hi])]
      simp only [sqlJoinNewItems, List.flatMap_cons]
      rw [ih]

theorem multiQtyRows_no_num (L : Ledger) (n : String) (h : noNewWithNum L n) :
    ∀ row ∈ multiQtyRows L, row.1 ≠ n := by
  intro row hrow
  simp only [multiQtyRows, List.mem_flatMap, List.mem_map, List.mem_filter] at hrow
  rcases hrow with ⟨i, hi, o, ⟨⟨ho, hcond⟩, hq⟩, heq⟩
  simp only [decide_eq_true_eq] at hcond
  intro hn
  have h1 : row.1 = o.order_number := by rw [← heq]
  have h2 := h o ho (h1 ▸ hn)
  rw [h2] at hcond
  exact absurd hcond.2 (by simp)

theorem parseOrder_persist (d : List (String × String)) (L : Ledger)
    (log : List LogEntry) (o : FetchedOrder) (n : String)
    (hex : ∃ r ∈ L.orders, r.order_number = n) (h : noNewWithNum L n) :
    noNewWithNum (parseOrder d L log o).1 n ∧
      ∃ r ∈ (parseOrder d L log o).1.orders, r.order_number = n := by
  by_cases hfound : ∃ r ∈ L.orders, r.order_number = o.orderNumber
  · rw [parseOrder_found d L log o hfound]
    constructor
    · intro r hr hnum
      rcases List.mem_map.mp hr with ⟨r0, hr0, heq⟩
      by_cases h0 : r0.order_number = o.orderNumber
      · rw [if_pos h0] at heq
        rw [← heq]
      · rw [if_neg h0] at heq
        rw [← heq] at hnum ⊢
        exact h r0 hr0 hnum
    · rcases hex with ⟨r, hr, hnum⟩
      by_cases h0 : r.order_number = o.orderNumber
      · exact ⟨⟨r.order_number, r.customer_name, r.order_date, false⟩,
          List.mem_map.mpr ⟨r, hr, by rw [if_pos h0]⟩, hnum⟩
      · exact ⟨r, List.mem_map.mpr ⟨r, hr, by rw [if_neg h0]⟩, hnum⟩
  · have hnone : ∀ r ∈ L.orders, r.order_number ≠ o.orderNumber := by
      intro r hr hc
      exact hfound ⟨r, hr, hc⟩
    rw [parseOrder_new d L log o hnone]
    have hno : o.orderNumber ≠ n := by
      intro hc
      rcases hex with ⟨r, hr, hnum⟩
      exact hnone r hr (hnum.trans hc.symm)
    constructor
    · intro r hr hnum
      rcases List.mem_append.mp hr with hr | hr
      · exact h r hr hnum
      · rcases List.mem_singleton.mp hr with rfl
        exact absurd hnum hno
    · rcases hex with ⟨r, hr, hnum⟩
      exact ⟨r, List.mem_append_left _ hr, hnum⟩

theorem parseRun_persist (d : List (String × String)) (os : List FetchedOrder)
    (st : Ledger × List LogEntry) (n : String)
    (hex : ∃ r ∈ st.1.orders, r.order_number = n) (h : noNewWithNum st.1 n) :
    noNewWithNum (parse_awaiting_shipment_order_data d st os).1 n := by
  induction os generalizing st with
  | nil => exact h
  | cons o rest ih =>
    simp only [parse_awaiting_shipment_order_data, List.foldl_cons]
    have step := parseOrder_persist d st.1 st.2 o n hex h
    exact ih (parseOrder d st.1 st.2 o) step.2 step.1

/-! ## Claim C4 -/

/-- C4 (counterexample): recording the new order `1001`, which has one
item, drives the database through two separately committed states; in the
first of them (right after `INSERT INTO ..._order` and its `commit()`) the
Order row is observable while the order's item rows are not yet present —
the claimed unreachable partial state is reached on every new order with
items. -/
theorem c4_atomicity_counterexample :
    ((newOrderCommits [] ⟨[], []⟩ c4order).headD ⟨[], []⟩).orders =
        [⟨"1001", "Alice", "2024-01-02T03:04:05", true⟩]
    ∧ ((newOrderCommits [] ⟨[], []⟩ c4order).headD ⟨[], []⟩).items = []
    ∧ (newOrderCommits [] ⟨[], []⟩ c4order).getLastD ⟨[], []⟩ =
        ⟨[⟨"1001", "Alice", "2024-01-02T03:04:05", true⟩],
         [⟨"1001", "PREM-823-MED", 1⟩]⟩ := by
  refine ⟨rfl, rfl, rfl⟩

/-- C4 (amended): recording a new order issues one commit for the Order
row followed by one separate commit per Item row.  The final committed
state holds the order with all of its resolved items, but the first
committed state already exposes the Order row with none of its items, so
per-order atomicity does not hold; the number of committed states is the
item count plus one. -/
theorem c4_commit_granularity (d : List (String × String)) (L : Ledger)
    (log : List LogEntry) (o : FetchedOrder)
    (h : ∀ r ∈ L.orders, r.order_number ≠ o.orderNumber) :
    (parseOrder d L log o).1 =
      ⟨L.orders ++ [⟨o.orderNumber, o.custName, o.orderDate, true⟩],
       L.items ++ (resolvedItems d o).map
         (fun p => (⟨o.orderNumber, p.1, p.2⟩ : ItemRow))⟩
    ∧ (parseOrder d L log o).2 =
      log ++ [⟨o.orderNumber, o.custName, o.orderDate, true, resolvedItems d o⟩]
    ∧ (newOrderCommits d L o).head? =
      some ⟨L.orders ++ [⟨o.orderNumber, o.custName, o.orderDate, true⟩], L.items⟩
    ∧ (newOrderCommits d L o).length = (resolvedItems d o).length + 1 := by
  refine ⟨?_, ?_, rfl, ?_⟩
  · rw [parseOrder_new d L log o h]
  · rw [parseOrder_new d L log o h]
  · simp only [newOrderCommits, List.length_cons, itemCommits_length]

/-- C4 (witness): the amended theorem applied to the concrete order
`1001` over an empty ledger. -/
theorem c4_commit_granularity_witness :
    (parseOrder [] ⟨[], []⟩ [] c4order).1 =
      ⟨[⟨"1001", "Alice", "2024-01-02T03:04:05", true⟩],
       [⟨"1001", "PREM-823-MED", 1⟩]⟩
    ∧ (newOrderCommits [] ⟨[], []⟩ c4order).length = 2 := by
  have h := c4_commit_granularity [] ⟨[], []⟩ [] c4order (by simp)
  refine ⟨?_, ?_⟩
  · rw [h.1]
    rfl
  · rw [h.2.2.2]
    rfl

/-! ## Claim C2 -/

/-- A flipped-flag update leaves every row with the given number not-new. -/
theorem noNew_of_flip (os : List OrderRow) (items : List ItemRow) (n : String) :
    noNewWithNum
      ⟨os.map (fun r =>
          if r.order_number = n then
            ⟨r.order_number, r.customer_name, r.order_date, false⟩
          else r),
        items⟩ n := by
  intro r hr hnum
  rcases List.mem_map.mp hr with ⟨r0, hr0, heq⟩
  by_cases h0 : r0.order_number = n
  · rw [if_pos h0] at heq
    rw [← heq]
  · rw [if_neg h0] at heq
    exact absurd (heq ▸ hnum) h0

/-- C2 (counterexample): customer `A` has the previously seen order `OLD`
in the ledger and places two genuinely new orders `N1`, `N2`.  Re-ingesting
`OLD` flips its flag to false and inserts nothing, yet the multi-order
customers QC report still lists `OLD` among `A`'s order numbers — the
report's second `SELECT` has no `is_new` filter — so a re-ingested order is
not excluded from the next run's QC reports, refuting the claim's final
conjunct. -/
theorem c2_reingest_counterexample :
    (parse_awaiting_shipment_order_data []
        (⟨[⟨"OLD", "A", "d0", true⟩], []⟩, [])
        [⟨"OLD", "A", "d0", []⟩, ⟨"N1", "A", "d1", []⟩, ⟨"N2", "A", "d2", []⟩]).1 =
      ⟨[⟨"OLD", "A", "d0", false⟩, ⟨"N1", "A", "d1", true⟩,
        ⟨"N2", "A", "d2", true⟩], []⟩
    ∧ order_info_dict
        ⟨[⟨"OLD", "A", "d0", false⟩, ⟨"N1", "A", "d1", true⟩,
          ⟨"N2", "A", "d2", true⟩], []⟩ =
      [("A", ["OLD", "N1", "N2"])] := by
  exact ⟨rfl, rfl⟩

/-- C2 (amended): re-ingesting an order whose number is already in the
ledger inserts no Order row and no Item rows; the only ledger mutation is
the `is_new` flag of the rows carrying that number flipping to false, and
the flag never returns to true for the rest of the run.  The order is
excluded from the pick-list scope (its items contribute no rows to the
`is_new = 1` join) and from the multi-quantity QC report; its number may
however still be listed by the multi-order-customers report when its
customer qualifies through other new orders. -/
theorem c2_reingest_updates_only (d : List (String × String)) (L : Ledger)
    (log : List LogEntry) (o : FetchedOrder)
    (h : ∃ r ∈ L.orders, r.order_number = o.orderNumber) :
    (parseOrder d L log o).1.orders =
      L.orders.map (fun r =>
        if r.order_number = o.orderNumber then
          ⟨r.order_number, r.customer_name, r.order_date, false⟩
        else r)
    ∧ (parseOrder d L log o).1.items = L.items
    ∧ (parseOrder d L log o).2 =
      log ++ [⟨o.orderNumber, o.custName, o.orderDate, false, resolvedItems d o⟩]
    ∧ o.orderNumber ∉ newCohort (parseOrder d L log o).1
    ∧ sqlJoinNewItems (parseOrder d L log o).1 =
      sqlJoinNewItems
        ⟨(parseOrder d L log o).1.orders,
         (parseOrder d L log o).1.items.filter (fun i => i.ord_num ≠ o.orderNumber)⟩
    ∧ (∀ row ∈ multiQtyRows (parseOrder d L log o).1, row.1 ≠ o.orderNumber)
    ∧ (∀ os : List FetchedOrder,
        noNewWithNum
          (parse_awaiting_shipment_order_data d (parseOrder d L log o) os).1
          o.orderNumber) := by
  have hP := parseOrder_found d L log o h
  have horders : (parseOrder d L log o).1.orders =
      L.orders.map (fun r =>
        if r.order_number = o.orderNumber then
          ⟨r.order_number, r.customer_name, r.order_date, false⟩
        else r) := by rw [hP]
  have hitems : (parseOrder d L log o).1.items = L.items := by rw [hP]
  have hnoNew : noNewWithNum (parseOrder d L log o).1 o.orderNumber := by
    intro r hr hnum
    rw [horders] at hr
    exact (noNew_of_flip L.orders L.items o.orderNumber) r hr hnum
  have hex : ∃ r ∈ (parseOrder d L log o).1.orders,
      r.order_number = o.orderNumber := by
    rcases h with ⟨r, hr, hnum⟩
    rw [horders]
    exact ⟨⟨r.order_number, r.customer_name, r.order_date, false⟩,
      List.mem_map.mpr ⟨r, hr, by rw [if_pos hnum]⟩, hnum⟩
  refine ⟨horders, hitems, by rw [hP], newCohort_not_mem _ _ hnoNew, ?_, ?_, ?_⟩
  · have hdrop := sqlJoinNewItems_drop (parseOrder d L log o).1.orders
      (parseOrder d L log o).1.items o.orderNumber
      (fun r hr hnum => hnoNew r hr hnum)
    exact hdrop
  · exact multiQtyRows_no_num _ _ hnoNew
  · intro os
    exact parseRun_persist d os (parseOrder d L log o) o.orderNumber hex hnoNew

/-- C2 (witness): the amended theorem applied to a ledger holding order
`OLD` and a re-ingestion of `OLD`, with every hypothesis discharged. -/
theorem c2_reingest_updates_only_witness :
    (parseOrder [] ⟨[⟨"OLD", "A", "d0", true⟩], [⟨"OLD", "SKU1", 2⟩]⟩ []
        ⟨"OLD", "A", "d0", []⟩).1.orders =
      [⟨"OLD", "A", "d0", false⟩]
    ∧ (parseOrder [] ⟨[⟨"OLD", "A", "d0", true⟩], [⟨"OLD", "SKU1", 2⟩]⟩ []
        ⟨"OLD", "A", "d0", []⟩).1.items = [⟨"OLD", "SKU1", 2⟩]
    ∧ "OLD" ∉ newCohort (parseOrder [] ⟨[⟨"OLD", "A", "d0", true⟩],
        [⟨"OLD", "SKU1", 2⟩]⟩ [] ⟨"OLD", "A", "d0", []⟩).1 := by
  have h := c2_reingest_updates_only [] ⟨[⟨"OLD", "A", "d0", true⟩],
    [⟨"OLD", "SKU1", 2⟩]⟩ [] ⟨"OLD", "A", "d0", []⟩
    ⟨⟨"OLD", "A", "d0", true⟩, by simp, rfl⟩
  refine ⟨?_, h.2.1, h.2.2.2.1⟩
  rw [h.1]
  rfl

/-! ## Claim C10 -/

/-- C10 (counterexample): within one run over an empty ledger, customer `A`
places `N1`, `N2` and a duplicated `N3`.  The second `N3` occurrence flips
the order to not-new, yet the multi-order-customers QC report of that run
still lists `N3` among `A`'s order numbers (the report's second query has
no `is_new` filter), so the duplicated order is not excluded from that
run's QC reports as the claim asserts. -/
theorem c10_duplicate_counterexample :
    (parse_awaiting_shipment_order_data [] (⟨[], []⟩, [])
        [⟨"N1", "A", "d1", []⟩, ⟨"N2", "A", "d2", []⟩, ⟨"N3", "A", "d3", []⟩,
         ⟨"N3", "A", "d3", []⟩]).1 =
      ⟨[⟨"N1", "A", "d1", true⟩, ⟨"N2", "A", "d2", true⟩,
        ⟨"N3", "A", "d3", false⟩], []⟩
    ∧ (parse_awaiting_shipment_order_data [] (⟨[], []⟩, [])
        [⟨"N1", "A", "d1", []⟩, ⟨"N2", "A", "d2", []⟩, ⟨"N3", "A", "d3", []⟩,
         ⟨"N3", "A", "d3", []⟩]).2 =
      [⟨"N1", "A", "d1", true, []⟩, ⟨"N2", "A", "d2", true, []⟩,
       ⟨"N3", "A", "d3", true, []⟩, ⟨"N3", "A", "d3", false, []⟩]
    ∧ order_info_dict
        ⟨[⟨"N1", "A", "d1", true⟩, ⟨"N2", "A", "d2", true⟩,
          ⟨"N3", "A", "d3", false⟩], []⟩ =
      [("A", ["N1", "N2", "N3"])] := by
  exact ⟨rfl, rfl, rfl⟩

/-- C10 (amended): when an order number first absent from the ledger occurs
twice in one run, the first occurrence inserts the Order row with
`is_new = 1` and logs an `is_new = 1` entry; the later occurrence inserts
nothing, flips the row's flag to 0, and logs an `is_new = 0` entry.  The
order is thereby excluded from that run's pick-list scope and
multi-quantity QC report, and its flag stays 0 for the rest of the run;
its number may still appear in the multi-order-customers listing. -/
theorem c10_duplicate_in_run (d : List (String × String)) (L : Ledger)
    (log : List LogEntry) (o o2 : FetchedOrder)
    (hn : ∀ r ∈ L.orders, r.order_number ≠ o.orderNumber)
    (heq : o2.orderNumber = o.orderNumber) :
    (parseOrder d L log o).1.orders =
      L.orders ++ [⟨o.orderNumber, o.custName, o.orderDate, true⟩]
    ∧ (parseOrder d L log o).2 =
      log ++ [⟨o.orderNumber, o.custName, o.orderDate, true, resolvedItems d o⟩]
    ∧ (parseOrder d (parseOrder d L log o).1 (parseOrder d L log o).2 o2).1.orders =
      L.orders.map (fun r =>
          if r.order_number = o2.orderNumber then
            ⟨r.order_number, r.customer_name, r.order_date, false⟩
          else r) ++ [⟨o.orderNumber, o.custName, o.orderDate, false⟩]
    ∧ (parseOrder d (parseOrder d L log o).1 (parseOrder d L log o).2 o2).1.items =
      (parseOrder d L log o).1.items
    ∧ (parseOrder d (parseOrder d L log o).1 (parseOrder d L log o).2 o2).2 =
      (parseOrder d L log o).2 ++
        [⟨o2.orderNumber, o2.custName, o2.orderDate, false, resolvedItems d o2⟩]
    ∧ o.orderNumber ∉
      newCohort (parseOrder d (parseOrder d L log o).1 (parseOrder d L log o).2 o2).1
    ∧ (∀ row ∈ multiQtyRows
        (parseOrder d (parseOrder d L log o).1 (parseOrder d L log o).2 o2).1,
        row.1 ≠ o.orderNumber)
    ∧ (∀ os : List FetchedOrder,
        noNewWithNum
          (parse_awaiting_shipment_order_data d
            (parseOrder d (parseOrder d L log o).1 (parseOrder d L log o).2 o2) os).1
          o.orderNumber) := by
  have hP1 := parseOrder_new d L log o hn
  have horders1 : (parseOrder d L log o).1.orders =
      L.orders ++ [⟨o.orderNumber, o.custName, o.orderDate, true⟩] := by rw [hP1]
  have hex1 : ∃ r ∈ (parseOrder d L log o).1.orders,
      r.order_number = o2.orderNumber := by
    rw [horders1, heq]
    exact ⟨⟨o.orderNumber, o.custName, o.orderDate, true⟩,
      List.mem_append_right _ (List.mem_singleton.mpr rfl), rfl⟩
  have hP2 := parseOrder_found d (parseOrder d L log o).1 (parseOrder d L log o).2
    o2 hex1
  have horders2 : (parseOrder d (parseOrder d L log o).1
      (parseOrder d L log o).2 o2).1.orders =
      L.orders.map (fun r =>
          if r.order_number = o2.orderNumber then
            ⟨r.order_number, r.customer_name, r.order_date, false⟩
          else r) ++ [⟨o.orderNumber, o.custName, o.orderDate, false⟩] := by
    rw [hP2]
    simp only [horders1, List.map_append]
    congr 1
    simp [heq]
  have hnoNew : noNewWithNum (parseOrder d (parseOrder d L log o).1
      (parseOrder d L log o).2 o2).1 o.orderNumber := by
    intro r hr hnum
    rw [horders2] at hr
    rcases List.mem_append.mp hr with hr | hr
    · rcases List.mem_map.mp hr with ⟨r0, hr0, heq2⟩
      by_cases h0 : r0.order_number = o2.orderNumber
      · rw [if_pos h0] at heq2
        rw [← heq2]
      · rw [if_neg h0] at heq2
        exact absurd (heq2 ▸ hnum) (hn r0 hr0)
    · rcases List.mem_singleton.mp hr with rfl
      rfl
  have hex2 : ∃ r ∈ (parseOrder d (parseOrder d L log o).1
      (parseOrder d L log o).2 o2).1.orders, r.order_number = o.orderNumber := by
    rw [horders2]
    exact ⟨⟨o.orderNumber, o.custName, o.orderDate, false⟩,
      List.mem_append_right _ (List.mem_singleton.mpr rfl), rfl⟩
  refine ⟨horders1, by rw [hP1], horders2, by rw [hP2], by rw [hP2],
    newCohort_not_mem _ _ hnoNew, multiQtyRows_no_num _ _ hnoNew, ?_⟩
  intro os
  exact parseRun_persist d os _ o.orderNumber hex2 hnoNew

/-- C10 (witness): the amended theorem applied to the duplicated order
`N3` arriving twice over an empty ledger. -/
theorem c10_duplicate_in_run_witness :
    (parseOrder [] ⟨[], []⟩ [] ⟨"N3", "A", "d3", []⟩).1.orders =
      [⟨"N3", "A", "d3", true⟩]
    ∧ (parseOrder []
        (parseOrder [] ⟨[], []⟩ [] ⟨"N3", "A", "d3", []⟩).1
        (parseOrder [] ⟨[], []⟩ [] ⟨"N3", "A", "d3", []⟩).2
        ⟨"N3", "A", "d3", []⟩).1.orders = [⟨"N3", "A", "d3", false⟩]
    ∧ "N3" ∉ newCohort (parseOrder []
        (parseOrder [] ⟨[], []⟩ [] ⟨"N3", "A", "d3", []⟩).1
        (parseOrder [] ⟨[], []⟩ [] ⟨"N3", "A", "d3", []⟩).2
        ⟨"N3", "A", "d3", []⟩).1 := by
  have h := c10_duplicate_in_run [] ⟨[], []⟩ [] ⟨"N3", "A", "d3", []⟩
    ⟨"N3", "A", "d3", []⟩ (by simp) rfl
  refine ⟨?_, ?_, h.2.2.2.2.2.1⟩
  · rw [h.1]
    rfl
  · rw [h.2.2.1]
    rfl

/-! ## Helper lemmas: the customers report dictionary -/

theorem lookupG_dictAppend_self (d : List (String × List String))
    (k v : String) :
    lookupG (dictAppend d k v) k = some ((lookupG d k).getD [] ++ [v]) := by
  induction d with
  | nil => simp [dictAppend, lookupG]
  | cons kv rest ih =>
    rcases kv with ⟨k0, l⟩
    simp only [dictAppend]
    split
    · rename_i he
      subst he
      simp [lookupG]
    · rename_i he
      simp only [lookupG, if_neg he]
      exact ih

theorem lookupG_dictAppend_ne (d : List (String × List String))
    (k v s : String) (h : k ≠ s) :
    lookupG (dictAppend d k v) s = lookupG d s := by
  induction d with
  | nil => simp [dictAppend, lookupG, h]
  | cons kv rest ih =>
    rcases kv with ⟨k0, l⟩
    simp only [dictAppend]
    split
    · rename_i he
      subst he
      simp only [lookupG, if_neg h]
    · simp only [lookupG]
      split
      · rfl
      · exact ih

theorem keys_dictAppend_mem (d : List (String × List String)) (k v s : String) :
    s ∈ (dictAppend d k v).map (fun kv => kv.1) ↔
      s ∈ d.map (fun kv => kv.1) ∨ s = k := by
  induction d with
  | nil => simp [dictAppend]
  | cons kv rest ih =>
    rcases kv with ⟨k0, l⟩
    simp only [dictAppend]
    split
    · rename_i he
      subst he
      simp only [List.map_cons, List.mem_cons]
      constructor
      · exact fun h => Or.inl h
      · rintro ((h | h) | h)
        · exact Or.inl h
        · exact Or.inr h
        · exact Or.inl (h ▸ rfl)
    · simp only [List.map_cons, List.mem_cons, ih]
      tauto

theorem fold_dictAppend_lookup_some (rows : List (String × String))
    (d : List (String × List String)) (s : String) (l0 : List String)
    (h : lookupG d s = some l0) :
    lookupG (rows.foldl (fun d2 r => dictAppend d2 r.1 r.2) d) s =
      some (l0 ++ valsFor s rows) := by
  induction rows generalizing d l0 with
  | nil => simpa [valsFor] using h
  | cons r rest ih =>
    simp only [List.foldl_cons]
    by_cases hr : r.1 = s
    · have h2 : lookupG (dictAppend d r.1 r.2) s = some (l0 ++ [r.2]) := by
        rw [← hr] at h ⊢
        rw [lookupG_dictAppend_self, h]
        rfl
      rw [ih _ _ h2]
      simp [valsFor, List.filter_cons, hr, List.append_assoc]
    · have h2 : lookupG (dictAppend d r.1 r.2) s = some l0 := by
        rw [lookupG_dictAppend_ne d r.1 r.2 s hr]
        exact h
      rw [ih _ _ h2]
      simp [valsFor, List.filter_cons, hr]

theorem fold_dictAppend_lookup_none (rows : List (String × String))
    (d : List (String × List String)) (s : String)
    (h : lookupG d s = none) (hmem : s ∈ rows.map (fun r => r.1)) :
    lookupG (rows.foldl (fun d2 r => dictAppend d2 r.1 r.2) d) s =
      some (valsFor s rows) := by
  induction rows generalizing d with
  | nil => simp at hmem
  | cons r rest ih =>
    simp only [List.foldl_cons]
    by_cases hr : r.1 = s
    · have h2 : lookupG (dictAppend d r.1 r.2) s = some [r.2] := by
        rw [← hr] at h ⊢
        rw [lookupG_dictAppend_self, h]
        rfl
      rw [fold_dictAppend_lookup_some rest _ s [r.2] h2]
      simp [valsFor, List.filter_cons, hr]
    · have h2 : lookupG (dictAppend d r.1 r.2) s = none := by
        rw [lookupG_dictAppend_ne d r.1 r.2 s hr]
        exact h
      have hmem2 : s ∈ rest.map (fun r => r.1) := by
        simp only [List.map_cons, List.mem_cons] at hmem
        rcases hmem with hm | hm
        · exact absurd hm.symm hr
        · exact hm
      have hv : valsFor s (r :: rest) = valsFor s rest := by
        simp [valsFor, List.filter_cons, hr]
      rw [hv]
      exact ih _ h2 hmem2

theorem fold_dictAppend_keys (rows : List (String × String))
    (d : List (String × List String)) (s : String) :
    s ∈ (rows.foldl (fun d2 r => dictAppend d2 r.1 r.2) d).map (fun kv => kv.1) ↔
      s ∈ d.map (fun kv => kv.1) ∨ s ∈ rows.map (fun r => r.1) := by
  induction rows generalizing d with
  | nil => simp
  | cons r rest ih =>
    simp only [List.foldl_cons, List.map_cons, List.mem_cons]
    rw [ih, keys_dictAppend_mem]
    tauto

/-! ## Helper lemmas: the multi-order-customers queries -/

theorem mem_multiOrderCustomers (L : Ledger) (c : String) :
    c ∈ multiOrderCustomers L ↔ 1 < newOrderCountFor L c := by
  unfold multiOrderCustomers
  rw [List.mem_filter, mem_dedupFirstAux]
  simp only [List.not_mem_nil, not_false_iff, and_true, decide_eq_true_eq]
  constructor
  · exact fun h => h.2
  · intro h
    refine ⟨?_, h⟩
    have hpos : 0 < (L.orders.filter
        (fun o => o.is_new ∧ o.customer_name = c)).length :=
      Nat.lt_of_lt_of_le Nat.zero_lt_one (Nat.le_of_lt h)
    rcases List.exists_mem_of_length_pos hpos with ⟨o, ho⟩
    rcases List.mem_filter.mp ho with ⟨ho2, hcond⟩
    simp only [decide_eq_true_eq] at hcond
    exact List.mem_map.mpr ⟨o, List.mem_filter.mpr ⟨ho2, by simp [hcond.1]⟩,
      hcond.2⟩

theorem multiOrderRows_keys (L : Ledger) (s : String) :
    s ∈ (multiOrderRows L).map (fun r => r.1) ↔
      s ∈ multiOrderCustomers L ∧ ∃ o ∈ L.orders, o.customer_name = s := by
  unfold multiOrderRows
  rw [List.map_map]
  simp only [Function.comp_def, List.mem_map, List.mem_filter,
    decide_eq_true_eq]
  constructor
  · rintro ⟨o, ⟨ho, hmo⟩, hname⟩
    exact ⟨hname ▸ hmo, o, ho, hname⟩
  · rintro ⟨hmo, o, ho, hname⟩
    exact ⟨o, ⟨ho, hname ▸ hmo⟩, hname⟩

theorem valsFor_multiOrderRows_aux (mo : List String) (c : String)
    (hc : c ∈ mo) (os : List OrderRow) :
    valsFor c ((os.filter (fun o => o.customer_name ∈ mo)).map
        (fun o => (o.customer_name, o.order_number))) =
      (os.filter (fun o => o.customer_name = c)).map
        (fun o => o.order_number) := by
  induction os with
  | nil => rfl
  | cons o rest ih =>
    simp only [List.filter_cons]
    by_cases hname : o.customer_name = c
    · rw [if_pos (by simp [hname, hc]), if_pos (by simp [hname])]
      simp only [List.map_cons]
      unfold valsFor at ih ⊢
      simp only [List.filter_cons]
      rw [if_pos (by simp [hname])]
      simp only [List.map_cons]
      rw [ih]
    · by_cases hmo : o.customer_name ∈ mo
      · rw [if_pos (by simp [hmo]), if_neg (by simp [hname])]
        simp only [List.map_cons]
        unfold valsFor at ih ⊢
        simp only [List.filter_cons]
        rw [if_neg (by simp [hname])]
        rw [ih]
      · rw [if_neg (by simp [hmo]), if_neg (by simp [hname])]
        exact ih

/-! ## Claim C3 -/

/-- C3 (counterexample): customer `A` has new orders `O1`, `O2` and the old
order `O3` (`is_new = false`).  `A` is correctly reported (two new orders),
but the listed order numbers are `O1, O2, O3` — including the old `O3` —
because the report's second `SELECT` has no `is_new` filter; the claim
that the listed numbers are exactly those of the customer's new orders is
false. -/
theorem c3_customers_report_counterexample :
    order_info_dict c3Ledger = [("A", ["O1", "O2", "O3"])]
    ∧ (c3Ledger.orders.filter (fun o => o.is_new)).map
        (fun o => o.order_number) = ["O1", "O2"] := by
  exact ⟨rfl, rfl⟩

/-- C3 (amended): a customer is reported iff they have more than one order
with `is_new = true`; for a reported customer the listed order numbers are
those of ALL the customer's ledger orders (new and old), in ledger order;
when no customer qualifies, the explicit `NO CUSTOMERS WITH MULTIPLE
ORDERS` marker is written under the report header. -/
theorem c3_customers_report_characterization (L : Ledger) (c : String) :
    (c ∈ (order_info_dict L).map (fun kv => kv.1) ↔ 1 < newOrderCountFor L c)
    ∧ (1 < newOrderCountFor L c →
      lookupG (order_info_dict L) c =
        some ((L.orders.filter (fun o => o.customer_name = c)).map
          (fun o => o.order_number)))
    ∧ ((∀ x ∈ L.orders, ¬ 1 < newOrderCountFor L x.customer_name) →
      customersReportBody L =
        "\nCUSTOMERS WITH MORE THAN ONE ORDER:\n\n" ++
          "NO CUSTOMERS WITH MULTIPLE ORDERS") := by
  have hord : ∀ hcount : 1 < newOrderCountFor L c,
      ∃ o ∈ L.orders, o.customer_name = c := by
    intro hcount
    have hpos : 0 < (L.orders.filter
        (fun o => o.is_new ∧ o.customer_name = c)).length :=
      Nat.lt_of_lt_of_le Nat.zero_lt_one (Nat.le_of_lt hcount)
    rcases List.exists_mem_of_length_pos hpos with ⟨o, ho⟩
    rcases List.mem_filter.mp ho with ⟨ho2, hcond⟩
    simp only [decide_eq_true_eq] at hcond
    exact ⟨o, ho2, hcond.2⟩
  refine ⟨?_, ?_, ?_⟩
  · unfold order_info_dict buildOrderInfoDict
    rw [fold_dictAppend_keys, multiOrderRows_keys]
    simp only [List.map_nil, List.not_mem_nil, false_or]
    constructor
    · exact fun h => (mem_multiOrderCustomers L c).mp h.1
    · exact fun h => ⟨(mem_multiOrderCustomers L c).mpr h, hord h⟩
  · intro h
    have hmem : c ∈ (multiOrderRows L).map (fun r => r.1) := by
      rw [multiOrderRows_keys]
      exact ⟨(mem_multiOrderCustomers L c).mpr h, hord h⟩
    unfold order_info_dict buildOrderInfoDict
    rw [fold_dictAppend_lookup_none (multiOrderRows L) [] c rfl hmem]
    unfold multiOrderRows
    rw [valsFor_multiOrderRows_aux (multiOrderCustomers L) c
      ((mem_multiOrderCustomers L c).mpr h) L.orders]
  · intro hno
    have hrows : multiOrderRows L = [] := by
      unfold multiOrderRows
      rw [List.filter_eq_nil_iff.mpr, List.map_nil]
      intro o ho
      simp only [decide_eq_true_eq]
      intro hmo
      exact hno o ho ((mem_multiOrderCustomers L o.customer_name).mp hmo)
    have hdict : order_info_dict L = [] := by
      unfold order_info_dict buildOrderInfoDict
      rw [hrows]
      rfl
    unfold customersReportBody
    rw [hdict]
    rfl

/-- C3 (witness): the amended theorem applied to the three-order ledger of
the counterexample (listing conjunct) and to a one-order ledger (marker
conjunct), with all hypotheses discharged. -/
theorem c3_customers_report_witness :
    lookupG (order_info_dict c3Ledger) "A" = some ["O1", "O2", "O3"]
    ∧ customersReportBody ⟨[⟨"O1", "A", "d1", true⟩], []⟩ =
      "\nCUSTOMERS WITH MORE THAN ONE ORDER:\n\n" ++
        "NO CUSTOMERS WITH MULTIPLE ORDERS" := by
  constructor
  · have h := (c3_customers_report_characterization c3Ledger "A").2.1
      (by decide)
    rw [h]
    rfl
  · exact (c3_customers_report_characterization
      ⟨[⟨"O1", "A", "d1", true⟩], []⟩ "A").2.2 (by decide)

/-! ## Helper lemmas: pick-list rendering -/

theorem joinLoop_eq_specJoinComma (l : List String) (acc : String) :
    joinLoop acc l = acc ++ specJoinComma l := by
  induction l generalizing acc with
  | nil => simp [joinLoop, specJoinComma]
  | cons x xs ih =>
    cases xs with
    | nil => simp [joinLoop, specJoinComma]
    | cons y ys =>
      simp only [joinLoop, specJoinComma]
      rw [ih]
      simp [String.append_assoc]

theorem rewriteEntries_cons_ok (e : String) (rest rendered : List String)
    (h : rewriteEntries (e :: rest) = .ok rendered) :
    ∃ size quant n rs, pySplit '-' e = [size, quant] ∧ pyInt quant = some n ∧
      rewriteEntries rest = .ok rs ∧
      rendered = (if n = 1 then size else size ++ " (" ++ quant ++ ")") :: rs := by
  simp only [rewriteEntries] at h
  split at h
  · rename_i size quant heq
    split at h
    · exact absurd h (by simp)
    · rename_i n hq
      rcases hr : rewriteEntries rest with _ | rs <;> rw [hr] at h
      · exact absurd h (by simp [Except.map])
      · simp only [Except.map, Except.ok.injEq] at h
        exact ⟨size, quant, n, rs, heq, hq, rfl, h.symm⟩
  · exact absurd h (by simp)

theorem rewriteEntries_forall2 (l rendered : List String)
    (h : rewriteEntries l = .ok rendered) :
    List.Forall₂ (fun e r => ∃ size quant n, pySplit '-' e = [size, quant] ∧
      pyInt quant = some n ∧
      r = if n = 1 then size else size ++ " (" ++ quant ++ ")") l rendered := by
  induction l generalizing rendered with
  | nil =>
    simp only [rewriteEntries, Except.ok.injEq] at h
    rw [← h]
    exact List.Forall₂.nil
  | cons e rest ih =>
    rcases rewriteEntries_cons_ok e rest rendered h with
      ⟨size, quant, n, rs, hsp, hq, hr, hrend⟩
    rw [hrend]
    exact List.Forall₂.cons ⟨size, quant, n, hsp, hq, rfl⟩ (ih rs hr)

theorem forall2_mem_right {α β : Type} {R : α → β → Prop} {l : List α}
    {r : List β} (h : List.Forall₂ R l r) {x : β} (hx : x ∈ r) :
    ∃ e ∈ l, R e x := by
  induction h with
  | nil => simp at hx
  | cons hR _ ih =>
    rcases List.mem_cons.mp hx with hx | hx
    · exact ⟨_, List.mem_cons_self _ _, hx ▸ hR⟩
    · rcases ih hx with ⟨e, he, hRe⟩
      exact ⟨e, List.mem_cons_of_mem _ he, hRe⟩

theorem sortKeys_ok_shape (l : List String) (ps : List (Nat × String))
    (h : sortKeys l = .ok ps) :
    ps.map (fun p => p.2) = l ∧ ∀ p ∈ ps, sizePriority p.2 = some p.1 := by
  induction l generalizing ps with
  | nil =>
    simp only [sortKeys, Except.ok.injEq] at h
    rw [← h]
    exact ⟨rfl, by simp⟩
  | cons x xs ih =>
    simp only [sortKeys] at h
    rcases hx : sizePriority x with _ | p <;> rw [hx] at h
    · exact absurd h (by simp)
    · rcases hr : sortKeys xs with _ | r <;> rw [hr] at h
      · exact absurd h (by simp [Except.map])
      · simp only [Except.map, Except.ok.injEq] at h
        rcases ih r hr with ⟨ihm, ihp⟩
        rw [← h]
        refine ⟨by simp [ihm], ?_⟩
        intro q hq
        rcases List.mem_cons.mp hq with hq | hq
        · rw [hq]
          exact hx
        · exact ihp q hq

theorem natPairBle_total (a b : Nat × String) :
    Nat.ble a.1 b.1 = true ∨ Nat.ble b.1 a.1 = true := by
  rcases Nat.le_total a.1 b.1 with h | h
  · exact Or.inl (Nat.ble_eq.mpr h)
  · exact Or.inr (Nat.ble_eq.mpr h)

theorem natPairBle_trans (a b c : Nat × String)
    (hab : Nat.ble a.1 b.1 = true) (hbc : Nat.ble b.1 c.1 = true) :
    Nat.ble a.1 c.1 = true :=
  Nat.ble_eq.mpr (Nat.le_trans (Nat.ble_eq.mp hab) (Nat.ble_eq.mp hbc))

theorem pySortBySize_ok_shape (l sorted : List String)
    (h : pySortBySize l = .ok sorted) :
    sorted.Perm l ∧
      List.Pairwise (fun a b => ∀ pa pb, sizePriority a = some pa →
        sizePriority b = some pb → pa ≤ pb) sorted := by
  simp only [pySortBySize] at h
  rcases hk : sortKeys l with _ | ps <;> rw [hk] at h
  · exact absurd h (by simp [Except.map])
  · simp only [Except.map, Except.ok.injEq] at h
    rcases sortKeys_ok_shape l ps hk with ⟨hmap, hprio⟩
    have hperm : ((sortLe (fun a b => Nat.ble a.1 b.1) ps).map
        (fun p => p.2)).Perm l :=
      hmap ▸ (sortLe_perm (fun a b => Nat.ble a.1 b.1) ps).map (fun p => p.2)
    have hpw0 : List.Pairwise (fun a b : Nat × String => Nat.ble a.1 b.1 = true)
        (sortLe (fun a b => Nat.ble a.1 b.1) ps) :=
      sortLe_pairwise _ natPairBle_total natPairBle_trans ps
    have hmemprio : ∀ p ∈ sortLe (fun a b => Nat.ble a.1 b.1) ps,
        sizePriority p.2 = some p.1 := by
      intro p hp
      exact hprio p ((sortLe_perm (fun a b => Nat.ble a.1 b.1) ps).mem_iff.mp hp)
    have hpw : List.Pairwise (fun a b => ∀ pa pb, sizePriority a = some pa →
        sizePriority b = some pb → pa ≤ pb)
        ((sortLe (fun a b => Nat.ble a.1 b.1) ps).map (fun p => p.2)) := by
      rw [List.pairwise_map]
      refine List.Pairwise.imp_of_mem ?_ hpw0
      intro a b ha hb hab pa pb hpa hpb
      rw [hmemprio a ha] at hpa
      rw [hmemprio b hb] at hpb
      rw [← Option.some.inj hpa, ← Option.some.inj hpb]
      exact Nat.ble_eq.mp hab
    rw [← h]
    exact ⟨hperm, hpw⟩

theorem isErr_bind_ok {ε α β : Type} {x : Except ε α} {f : α → Except ε β}
    {a : α} (hx : x = .ok a) (h : isErr (f a) = true) :
    isErr (x.bind f) = true := by
  rw [hx]
  exact h

/-! ## Claim C5 -/

/-- C5: the pick-list builder renders a list-valued group by sorting its
entries with the size comparator, rendering each entry as `SIZE` when its
quantity is 1 and `SIZE (quantity)` otherwise, joining them with `", "`
after the prefix `key -> `; a scalar-valued group renders as `key` when
the quantity is 1 and `key ... (quantity)` otherwise; the emitted lines
are the rendered lines sorted code-point-lexicographically; the written
artifact is independent of any prior file content (mode `'w'`); and the
group `PREM-100 ↦ [MED×1, LRG×2]` renders as
`PREM-100 -> MED, LRG (2)`. -/
theorem c5_pick_list_rendering :
    (∀ (acc : String) (l : List String), joinLoop acc l = acc ++ specJoinComma l)
    ∧ (∀ l rendered : List String, rewriteEntries l = .ok rendered →
        List.Forall₂ (fun e r => ∃ size quant n,
          pySplit '-' e = [size, quant] ∧ pyInt quant = some n ∧
          r = if n = 1 then size else size ++ " (" ++ quant ++ ")") l rendered)
    ∧ (∀ l sorted : List String, pySortBySize l = .ok sorted →
        sorted.Perm l ∧ List.Pairwise (fun a b => ∀ pa pb,
          sizePriority a = some pa → sizePriority b = some pb → pa ≤ pb) sorted)
    ∧ (∀ (key : String) (l sorted rendered : List String),
        pySortBySize l = .ok sorted → rewriteEntries sorted = .ok rendered →
        processGroup key (.sizes l) =
          .ok (key ++ " -> " ++ specJoinComma rendered ++ "\n", .sizes rendered))
    ∧ (∀ (key v : String) (n : Nat), pyInt v = some n → 1 ≤ n →
        processGroup key (.scalar v) =
          .ok ((if n = 1 then key ++ "\n" else key ++ " ... (" ++ v ++ ")" ++ "\n"),
            .scalar v))
    ∧ (∀ (g : Grouping) (lines : List String) (g2 : Grouping),
        create_pick_list g = .ok (lines, g2) →
        List.Pairwise (fun a b => pyStrLe a b = true) lines ∧
        ∃ raw, processGroups g = .ok (raw, g2) ∧ lines.Perm raw)
    ∧ (∀ (p1 p2 : String) (g : Grouping),
        pickListFileContent p1 g = pickListFileContent p2 g)
    ∧ create_pick_list [("PREM-100", .sizes ["MED-1", "LRG-2"])] =
        .ok (["PREM-100 -> MED, LRG (2)\n"],
          [("PREM-100", .sizes ["MED", "LRG (2)"])])
    ∧ create_pick_list [("WIDGET-1", .scalar "3"), ("WIDGET-2", .scalar "1")] =
        .ok (["WIDGET-1 ... (3)\n", "WIDGET-2\n"],
          [("WIDGET-1", .scalar "3"), ("WIDGET-2", .scalar "1")]) := by
  refine ⟨fun acc l => joinLoop_eq_specJoinComma l acc, rewriteEntries_forall2,
    pySortBySize_ok_shape, ?_, ?_, ?_, fun p1 p2 g => rfl, by decide, by decide⟩
  · intro key l sorted rendered h1 h2
    simp only [processGroup]
    rw [h1]
    simp only [Except.bind]
    rw [h2]
    simp only [Except.map]
    rw [joinLoop_eq_specJoinComma]
  · intro key v n hv hn
    simp only [processGroup, hv]
    by_cases h1 : n = 1
    · subst h1
      simp
    · have h2 : 1 < n := Nat.lt_of_le_of_ne hn (fun hc => h1 hc.symm)
      rw [if_pos h2, if_neg h1]
  · intro g lines g2 h
    simp only [create_pick_list] at h
    rcases hp : processGroups g with _ | lg <;> rw [hp] at h
    · exact absurd h (by simp [Except.map])
    · rcases lg with ⟨raw, rawg⟩
      simp only [Except.map, Except.ok.injEq, Prod.mk.injEq] at h
      obtain ⟨hl, hg⟩ := h
      subst hl
      subst hg
      exact ⟨sortLe_pairwise pyStrLe pyStrLe_total pyStrLe_trans raw,
        raw, hp ▸ rfl, sortLe_perm pyStrLe raw⟩

/-- C5 (witness): the rendering theorem applied at concrete inputs — the
`PREM-100` example group and the scalar group `WIDGET-1 ↦ 3`, with all
hypotheses discharged. -/
theorem c5_pick_list_rendering_witness :
    processGroup "PREM-100" (.sizes ["MED-1", "LRG-2"]) =
      .ok ("PREM-100" ++ " -> " ++ specJoinComma ["MED", "LRG (2)"] ++ "\n",
        .sizes ["MED", "LRG (2)"])
    ∧ processGroup "WIDGET-1" (.scalar "3") =
      .ok ((if 3 = 1 then "WIDGET-1" ++ "\n"
            else "WIDGET-1" ++ " ... (" ++ "3" ++ ")" ++ "\n"),
        .scalar "3") := by
  constructor
  · exact c5_pick_list_rendering.2.2.2.1 "PREM-100" ["MED-1", "LRG-2"]
      ["MED-1", "LRG-2"] ["MED", "LRG (2)"] (by decide) (by decide)
  · exact c5_pick_list_rendering.2.2.2.2.1 "WIDGET-1" "3" 3 (by decide)
      (by decide)

/-! ## Helper definitions and lemmas: well-formed grouping state -/

theorem entryWFb_spec (e : String) (h : entryWFb e = true) :
    ∃ size quant, pySplit '-' e = [size, quant] ∧
      (sizePriority e).isSome = true ∧ (pyInt quant).isSome = true ∧
      2 ≤ size.data.length := by
  unfold entryWFb at h
  split at h
  · rename_i size quant heq
    simp only [Bool.and_eq_true, decide_eq_true_eq] at h
    exact ⟨size, quant, heq, h.1.1, h.1.2, h.2⟩
  · exact absurd h (by simp)

theorem sortKeys_ok_of (l : List String)
    (h : ∀ e ∈ l, (sizePriority e).isSome = true) :
    ∃ ps, sortKeys l = .ok ps := by
  induction l with
  | nil => exact ⟨[], rfl⟩
  | cons x xs ih =>
    rcases Option.isSome_iff_exists.mp (h x (List.mem_cons_self x xs)) with ⟨p, hp⟩
    rcases ih (fun e he => h e (List.mem_cons_of_mem x he)) with ⟨ps, hps⟩
    exact ⟨(p, x) :: ps, by simp [sortKeys, hp, hps, Except.map]⟩

theorem pySortBySize_ok_of (l : List String)
    (h : ∀ e ∈ l, (sizePriority e).isSome = true) :
    ∃ sorted, pySortBySize l = .ok sorted := by
  rcases sortKeys_ok_of l h with ⟨ps, hps⟩
  exact ⟨(sortLe (fun a b => Nat.ble a.1 b.1) ps).map (fun p => p.2),
    by simp [pySortBySize, hps, Except.map]⟩

theorem rewriteEntries_ok_of (l : List String)
    (h : ∀ e ∈ l, entryWFb e = true) : ∃ r, rewriteEntries l = .ok r := by
  induction l with
  | nil => exact ⟨[], rfl⟩
  | cons e rest ih =>
    rcases entryWFb_spec e (h e (List.mem_cons_self e rest)) with
      ⟨size, quant, hsp, _, hq, _⟩
    rcases Option.isSome_iff_exists.mp hq with ⟨n, hn⟩
    rcases ih (fun x hx => h x (List.mem_cons_of_mem e hx)) with ⟨rs, hrs⟩
    exact ⟨(if n = 1 then size else size ++ " (" ++ quant ++ ")") :: rs,
      by simp [rewriteEntries, hsp, hn, hrs, Except.map]⟩

theorem processGroup_ok_of_wf (k : String) (v : GroupValue)
    (h : groupWFb v = true) : ∃ lv, processGroup k v = .ok lv := by
  cases v with
  | sizes l =>
    have hall : ∀ e ∈ l, entryWFb e = true := by
      simpa [groupWFb, List.all_eq_true] using h
    have hpr : ∀ e ∈ l, (sizePriority e).isSome = true := by
      intro e he
      rcases entryWFb_spec e (hall e he) with ⟨_, _, _, hp, _, _⟩
      exact hp
    rcases pySortBySize_ok_of l hpr with ⟨sorted, hsorted⟩
    have hsortmem : ∀ e ∈ sorted, entryWFb e = true := by
      intro e he
      exact hall e ((pySortBySize_ok_shape l sorted hsorted).1.mem_iff.mp he)
    rcases rewriteEntries_ok_of sorted hsortmem with ⟨rendered, hrend⟩
    exact ⟨(joinLoop (k ++ " -> ") rendered ++ "\n", .sizes rendered),
      by simp [processGroup, hsorted, hrend, Except.bind, Except.map]⟩
  | scalar q =>
    have hq : (pyInt q).isSome = true := by simpa [groupWFb] using h
    rcases Option.isSome_iff_exists.mp hq with ⟨n, hn⟩
    exact ⟨((if 1 < n then k ++ " ... (" ++ q ++ ")" ++ "\n" else k ++ "\n"),
      .scalar q), by simp [processGroup, hn]⟩

theorem processGroups_ok_of_wf (g : Grouping) (h : groupingWFb g = true) :
    ∃ lg, processGroups g = .ok lg := by
  induction g with
  | nil => exact ⟨([], []), rfl⟩
  | cons kv rest ih =>
    have h1 : groupWFb kv.2 = true ∧ groupingWFb rest = true := by
      simpa [groupingWFb, List.all_eq_true, List.forall_mem_cons] using
        (by simpa [groupingWFb] using h : ∀ x ∈ kv :: rest, groupWFb x.2 = true)
    rcases processGroup_ok_of_wf kv.1 kv.2 h1.1 with ⟨lv, hlv⟩
    rcases ih h1.2 with ⟨lg, hlg⟩
    rcases kv with ⟨k0, v0⟩
    exact ⟨(lv.1 :: lg.1, (k0, lv.2) :: lg.2),
      by simp [processGroups, hlv, hlg, Except.bind, Except.map]⟩

theorem processGroups_mem (g : Grouping) (lines : List String) (g2 : Grouping)
    (k : String) (v : GroupValue) (h : processGroups g = .ok (lines, g2))
    (hm : (k, v) ∈ g) :
    ∃ line v2, processGroup k v = .ok (line, v2) ∧ (k, v2) ∈ g2 := by
  induction g generalizing lines g2 with
  | nil => simp at hm
  | cons kv rest ih =>
    rcases kv with ⟨k0, v0⟩
    simp only [processGroups] at h
    rcases Except_bind_ok h with ⟨lv, hlv, h2⟩
    rcases hrest : processGroups rest with _ | lr
    · rw [hrest] at h2
      exact absurd h2 (by simp [Except.map])
    · rw [hrest] at h2
      rcases lr with ⟨lrl, lrg⟩
      simp only [Except.map, Except.ok.injEq, Prod.mk.injEq] at h2
      rcases List.mem_cons.mp hm with hm | hm
      · rw [Prod.mk.injEq] at hm
        refine ⟨lv.1, lv.2, by rw [hm.1, hm.2]; exact hlv, ?_⟩
        rw [← h2.2]
        exact hm.1 ▸ List.mem_cons_self _ _
      · rcases ih lrl lrg hrest hm with ⟨line, v2, hpv, hmem⟩
        exact ⟨line, v2, hpv, by rw [← h2.2]; exact List.mem_cons_of_mem _ hmem⟩

theorem processGroup_sizes_out (key : String) (l : List String) (line : String)
    (v2 : GroupValue) (h : processGroup key (.sizes l) = .ok (line, v2)) :
    ∃ sorted rendered, pySortBySize l = .ok sorted ∧
      rewriteEntries sorted = .ok rendered ∧ v2 = .sizes rendered := by
  simp only [processGroup] at h
  rcases Except_bind_ok h with ⟨sorted, hsorted, h2⟩
  rcases hrend : rewriteEntries sorted with _ | rendered
  · rw [hrend] at h2
    exact absurd h2 (by simp [Except.map])
  · rw [hrend] at h2
    simp only [Except.map, Except.ok.injEq, Prod.mk.injEq] at h2
    exact ⟨sorted, rendered, hsorted, hrend, h2.2.symm⟩

theorem rendered_entry_props (e r : String) (hwf : entryWFb e = true)
    (hrel : ∃ size quant n, pySplit '-' e = [size, quant] ∧
      pyInt quant = some n ∧
      r = if n = 1 then size else size ++ " (" ++ quant ++ ")") :
    (∀ c ∈ r.data, c ≠ '-') ∧ sizePriority r = sizePriority e := by
  rcases hrel with ⟨size, quant, n, hsp, hq, hr⟩
  rcases entryWFb_spec e hwf with ⟨size2, quant2, hsp2, _, _, hlen2⟩
  have hsz : size2 = size ∧ quant2 = quant := by
    rw [hsp] at hsp2
    simp only [List.cons.injEq, and_true] at hsp2
    exact ⟨hsp2.1.symm, hsp2.2.symm⟩
  have hlen : 2 ≤ size.data.length := hsz.1 ▸ hlen2
  have hsizemem : size ∈ pySplit '-' e := by rw [hsp]; simp
  have hquantmem : quant ∈ pySplit '-' e := by rw [hsp]; simp
  have hsizedf : ∀ c ∈ size.data, c ≠ '-' := pySplit_parts '-' e size hsizemem
  have hquantdf : ∀ c ∈ quant.data, c ≠ '-' := pySplit_parts '-' e quant hquantmem
  have hedata : e.data = size.data ++ '-' :: quant.data :=
    pySplit_pair_data '-' e size quant hsp
  have hrdata : r.data = size.data ++ (if n = 1 then [] else
      " (".data ++ (quant.data ++ ")".data)) := by
    by_cases h1 : n = 1
    · rw [hr, if_pos h1, if_pos h1, List.append_nil]
    · rw [hr, if_neg h1, if_neg h1]
      simp [String.data_append, List.append_assoc]
  constructor
  · intro c hc
    rw [hrdata] at hc
    rcases List.mem_append.mp hc with hc | hc
    · exact hsizedf c hc
    · split at hc
      · simp at hc
      · rcases List.mem_append.mp hc with hc | hc
        · intro hcc
          subst hcc
          revert hc
          decide
        · rcases List.mem_append.mp hc with hc | hc
          · exact hquantdf c hc
          · intro hcc
            subst hcc
            revert hc
            decide
  · unfold sizePriority pyTake
    have h1 : r.data.take 2 = size.data.take 2 := by
      rw [hrdata]
      exact List.take_append_of_le_length hlen
    have h2 : e.data.take 2 = size.data.take 2 := by
      rw [hedata]
      exact List.take_append_of_le_length hlen
    rw [h1, h2]

theorem rewriteEntries_err_nosplit (e : String) (rest : List String)
    (h : ∀ a b, pySplit '-' e ≠ [a, b]) :
    isErr (rewriteEntries (e :: rest)) = true := by
  rcases hsp : pySplit '-' e with _ | ⟨a, _ | ⟨b, _ | ⟨c, rest4⟩⟩⟩
  · simp [rewriteEntries, hsp, isErr]
  · simp [rewriteEntries, hsp, isErr]
  · exact absurd hsp (h a b)
  · simp [rewriteEntries, hsp, isErr]

theorem processGroup_rendered_err (key : String) (rendered : List String)
    (hne : rendered ≠ [])
    (hpr : ∀ r ∈ rendered, (sizePriority r).isSome = true)
    (hdf : ∀ r ∈ rendered, ∀ c ∈ r.data, c ≠ '-') :
    isErr (processGroup key (.sizes rendered)) = true := by
  rcases pySortBySize_ok_of rendered hpr with ⟨sorted, hsorted⟩
  have hperm := (pySortBySize_ok_shape rendered sorted hsorted).1
  cases sorted with
  | nil =>
    exact absurd hperm.nil_eq.symm hne
  | cons r0 rest2 =>
    have hr0 : r0 ∈ rendered := hperm.mem_iff.mp (List.mem_cons_self r0 rest2)
    have hsplit1 : pySplit '-' r0 = [r0] :=
      pySplit_of_not_mem '-' r0 (hdf r0 hr0)
    have herr : isErr (rewriteEntries (r0 :: rest2)) = true := by
      refine rewriteEntries_err_nosplit r0 rest2 ?_
      intro a b hc
      rw [hsplit1] at hc
      simp at hc
    simp only [processGroup]
    refine isErr_bind_ok hsorted ?_
    rw [isErr_map]
    exact herr

/-! ## Claim C9 -/

/-- C9: on a well-formed grouping state holding at least one non-empty
list-valued group, `create_pick_list` succeeds but rewrites, in place, every
stored `SIZE-QTY` entry of that group into its rendered display form: the
resulting state holds a same-length entry list none of whose elements is an
original entry, and invoking `create_pick_list` again on that mutated state
fails (the `SIZE-QTY` split of an already-rendered, dash-free entry raises),
so the builder consumes the grouping data rather than leaving it
reusable. -/
theorem c9_pick_list_consumes_grouping (g : Grouping) (key : String)
    (l : List String) (hwf : groupingWFb g = true)
    (hmem : (key, GroupValue.sizes l) ∈ g) (hne : l ≠ []) :
    ∃ lines g2, create_pick_list g = .ok (lines, g2)
      ∧ (∃ rendered, (key, GroupValue.sizes rendered) ∈ g2 ∧
          rendered.length = l.length ∧ (∀ r ∈ rendered, r ∉ l))
      ∧ isErr (create_pick_list g2) = true := by
  rcases processGroups_ok_of_wf g hwf with ⟨⟨lines0, g2⟩, hpg⟩
  rcases processGroups_mem g lines0 g2 key (.sizes l) hpg hmem with
    ⟨line, v2, hpv, hmem2⟩
  rcases processGroup_sizes_out key l line v2 hpv with
    ⟨sorted, rendered, hsorted, hrend, hv2⟩
  have hall : ∀ e ∈ l, entryWFb e = true := by
    have := (List.all_eq_true.mp hwf) (key, GroupValue.sizes l) hmem
    simpa [groupWFb, List.all_eq_true] using this
  have hperm := (pySortBySize_ok_shape l sorted hsorted).1
  have hsortwf : ∀ e ∈ sorted, entryWFb e = true :=
    fun e he => hall e (hperm.mem_iff.mp he)
  have hf2 := rewriteEntries_forall2 sorted rendered hrend
  have hrenprops : ∀ r ∈ rendered,
      (∀ c ∈ r.data, c ≠ '-') ∧ (sizePriority r).isSome = true := by
    intro r hr
    rcases forall2_mem_right hf2 hr with ⟨e, he, hrel⟩
    rcases rendered_entry_props e r (hsortwf e he) hrel with ⟨hdf, hpri⟩
    refine ⟨hdf, ?_⟩
    rw [hpri]
    rcases entryWFb_spec e (hsortwf e he) with ⟨_, _, _, hp, _, _⟩
    exact hp
  have hlen : rendered.length = l.length := by
    rw [← hf2.length_eq]
    exact hperm.length_eq
  have hnotmem : ∀ r ∈ rendered, r ∉ l := by
    intro r hr hrl
    rcases entryWFb_spec r (hall r hrl) with ⟨sa, qa, hspa, _, _, _⟩
    have := pySplit_pair_sep_mem '-' r sa qa hspa
    exact absurd rfl ((hrenprops r hr).1 '-' this)
  have hne2 : rendered ≠ [] := by
    intro hc
    rw [hc] at hlen
    exact hne (List.length_eq_zero.mp hlen.symm)
  refine ⟨sortLe pyStrLe lines0, g2, ?_, ⟨rendered, hv2 ▸ hmem2, hlen, hnotmem⟩, ?_⟩
  · simp [create_pick_list, hpg, Except.map]
  · rw [isErr_create_pick_list]
    refine processGroups_err g2 key (.sizes rendered) (hv2 ▸ hmem2) ?_
    exact processGroup_rendered_err key rendered hne2
      (fun r hr => (hrenprops r hr).2) (fun r hr => (hrenprops r hr).1)

/-- C9 (witness): the theorem applied to the concrete grouping
`PREM-100 ↦ ["MED-1", "LRG-2"]`, whose hypotheses hold by computation. -/
theorem c9_pick_list_consumes_grouping_witness :
    ∃ lines g2,
      create_pick_list [("PREM-100", GroupValue.sizes ["MED-1", "LRG-2"])] =
        .ok (lines, g2)
      ∧ (∃ rendered, ("PREM-100", GroupValue.sizes rendered) ∈ g2 ∧
          rendered.length = (["MED-1", "LRG-2"] : List String).length ∧
          (∀ r ∈ rendered, r ∉ (["MED-1", "LRG-2"] : List String)))
      ∧ isErr (create_pick_list g2) = true :=
  c9_pick_list_consumes_grouping
    [("PREM-100", GroupValue.sizes ["MED-1", "LRG-2"])] "PREM-100"
    ["MED-1", "LRG-2"] (by decide) (by decide) (by decide)

end PremierPicklist
